import Mathlib

/-!
Verification of the Ares controller (gupb/controller/ares/ares_controller.py).

The development shallow-embeds the controller: the `Map` knowledge base, the
BFS path finder `shortestPath`, the action translation `getActions`, and the
per-turn policy `KnowledgeBase.choice`.  Python exceptions are modelled with
`Except PyErr`; Python list indexing (negative wrap-around, IndexError) with
`pyGet`/`pySet`; the unseeded `random.choice` with an externally supplied
index `rng`; the bare `except:` of `choice` catches every error of its body,
and an extra boolean `inj` forces a failure of that body to model fault
injection.  A `Nat` fuel bounds the two source `while` loops; the fuel is
`MAPSIZE[0]*MAPSIZE[1] + 1`, which is proved sufficient below.
-/

set_option maxHeartbeats 1000000

namespace Ares

/-- Kinds of Python runtime errors the embedded code can raise. -/
inductive PyErr where
  | attributeError
  | typeError
  | indexError
  | keyError
  | wrongTargetFace
  | injected
  | fuelOut
  deriving DecidableEq, Repr

/-- Modelled from the spec: gupb.model.coordinates.Coords, an integer pair
with componentwise addition (the module itself is not part of src/). -/
structure Coords where
  x : Int
  y : Int
  deriving DecidableEq, Repr

instance : Add Coords := ⟨fun a b => ⟨a.x + b.x, a.y + b.y⟩⟩

theorem Coords.add_def (a b : Coords) : a + b = ⟨a.x + b.x, a.y + b.y⟩ := rfl

/-- Modelled from the spec: gupb.model.characters.Facing, one of four
directions.  The unit vectors match the source's getTargetFace conventions:
moving to a smaller y is UP, to a smaller x is LEFT. -/
inductive Facing where
  | UP
  | DOWN
  | LEFT
  | RIGHT
  deriving DecidableEq, Repr

/-- The facing's unit direction vector. -/
def Facing.value : Facing → Coords
  | .UP => ⟨0, -1⟩
  | .DOWN => ⟨0, 1⟩
  | .LEFT => ⟨-1, 0⟩
  | .RIGHT => ⟨1, 0⟩

/-- Modelled from the spec: gupb.model.characters.Action, the fixed
enumerated action set. -/
inductive Action where
  | TURN_LEFT
  | TURN_RIGHT
  | STEP_FORWARD
  | ATTACK
  | DO_NOTHING
  deriving DecidableEq, Repr

/-- Modelled from the spec: the part of a champion description the
controller reads (its facing). -/
structure ChampionDesc where
  facing : Facing
  deriving DecidableEq, Repr

/-- Modelled from the spec: gupb.model.tiles.TileDescription - the per-cell
record delivered in observations (type tag, loot, occupant, effects,
consumable).  Effects and loot are reduced to their identifying strings. -/
structure TileDesc where
  type : String
  loot : Option String
  character : Option ChampionDesc
  effects : List String
  consumable : Option String
  deriving DecidableEq, Repr

/-- Modelled from the spec: gupb.model.tiles.Tile - a static layout tile
(static passability, plus the dynamic attribute slots). -/
structure STile where
  stype : String
  passable : Bool
  loot : Option String
  character : Option ChampionDesc
  effects : List String
  consumable : Option String
  deriving DecidableEq, Repr

/-- A cell of Map.map: Python None, a static tiles.Tile from the arena
terrain, or a tiles.TileDescription written by update. -/
inductive MapTile where
  | none
  | staticTile (t : STile)
  | descTile (d : TileDesc)
  deriving DecidableEq, Repr

/-- The effects list of a tile.  In the source, tile.effects on None would
raise; every boolean call site short-circuits on tilePassable first, so the
value chosen for MapTile.none is never observable there (the unguarded
access in targetFound uses effectsAttr below instead). -/
def tileEffects : MapTile → List String
  | .none => []
  | .staticTile t => t.effects
  | .descTile d => d.effects

/-- tileIsMist from the source: some effect has type mist. -/
def tileIsMist (t : MapTile) : Bool :=
  (tileEffects t).any (fun e => e == "mist")

/-- tilePassable from the source: a TileDescription is passable iff its type
is land or menhir; a static Tile by its passable flag; anything else no. -/
def tilePassable : MapTile → Bool
  | .descTile d => d.type == "land" || d.type == "menhir"
  | .staticTile t => t.passable
  | .none => false

/-- Python attribute access tile.character (AttributeError on None). -/
def characterAttr : MapTile → Except PyErr (Option ChampionDesc)
  | .none => .error .attributeError
  | .staticTile t => .ok t.character
  | .descTile d => .ok d.character

/-- Python attribute access tile.consumable (AttributeError on None). -/
def consumableAttr : MapTile → Except PyErr (Option String)
  | .none => .error .attributeError
  | .staticTile t => .ok t.consumable
  | .descTile d => .ok d.consumable

/-- Python attribute access tile.type (AttributeError on None). -/
def typeAttr : MapTile → Except PyErr String
  | .none => .error .attributeError
  | .staticTile t => .ok t.stype
  | .descTile d => .ok d.type

/-- Python attribute access tile.passable: only static tiles.Tile has it;
a TileDescription namedtuple raises AttributeError. -/
def passableAttr : MapTile → Except PyErr Bool
  | .staticTile t => .ok t.passable
  | _ => .error .attributeError

/-- Python call tile.description().loot: only static tiles.Tile has the
description method. -/
def lootDescAttr : MapTile → Except PyErr (Option String)
  | .staticTile t => .ok t.loot
  | _ => .error .attributeError

/-- Python attribute access tile.effects used unguarded in targetFound. -/
def effectsAttr : MapTile → Except PyErr (List String)
  | .none => .error .attributeError
  | .staticTile t => .ok t.effects
  | .descTile d => .ok d.effects

/-- The target formats accepted by findTarget, mirroring the dynamic type
dispatch of the source (str, Coords, TileDescription, WeaponDescription,
ConsumableDescription, EffectDescription). -/
inductive Target where
  | str (s : String)
  | coords (c : Coords)
  | tileDesc (type : String)
  | weapon (name : String)
  | consumable (name : String)
  | effect (type : String)
  deriving DecidableEq, Repr

/-- Python list read l[i]: a negative index wraps once; out of range raises
IndexError. -/
def pyGet {α : Type} (l : List α) (i : Int) : Except PyErr α :=
  let j : Int := if i < 0 then i + l.length else i
  if h : 0 ≤ j ∧ j.toNat < l.length then .ok (l.get ⟨j.toNat, h.2⟩)
  else .error .indexError

/-- Python list write l[i] = a, with the same index semantics as pyGet. -/
def pySet {α : Type} (l : List α) (i : Int) (a : α) : Except PyErr (List α) :=
  let j : Int := if i < 0 then i + l.length else i
  if 0 ≤ j ∧ j.toNat < l.length then .ok (l.set j.toNat a)
  else .error .indexError

/-- Python grid write g[c.x][c.y] = a (read row, mutate row in place). -/
def pySet2 {α : Type} (g : List (List α)) (c : Coords) (a : α) :
    Except PyErr (List (List α)) := do
  let row ← pyGet g c.x
  let row' ← pySet row c.y a
  pySet g c.x row'

/-- Modelled from the spec: arenas.ArenaDescription plus the static layout
that arenas.Arena.load(name) would resolve for it (the loader is not part
of src/); size is the arena bounds, terrain the static tile of every
in-bounds cell that exists in the layout. -/
structure ArenaDescription where
  name : String
  size : Nat × Nat
  terrain : List (Coords × STile)
  deriving DecidableEq, Repr

/-- The Map class state (gathers and keeps information about the arena). -/
structure Map where
  MAPSIZE : Nat × Nat
  map : List (List MapTile)
  opponentsAlive : Int
  description : Option ChampionDesc
  position : Option Coords
  opponents : List (Coords × ChampionDesc)
  closestMist : Option Coords
  menhir : Option Coords
  deriving DecidableEq, Repr

/-- In-bounds write of a grid cell; the source only writes terrain cells,
which the arena keeps inside its own size. -/
def gridSetD {α : Type} (g : List (List α)) (c : Coords) (a : α) :
    List (List α) :=
  if 0 ≤ c.x ∧ 0 ≤ c.y then
    match g.get? c.x.toNat with
    | some row => g.set c.x.toNat (row.set c.y.toNat a)
    | none => g
  else g

/-- Map.initMap: a MAPSIZE[0] x MAPSIZE[1] grid of None, then the static
terrain tiles written at their coordinates. -/
def initMapGrid (sz : Nat × Nat) (terrain : List (Coords × STile)) :
    List (List MapTile) :=
  terrain.foldl (fun g ct => gridSetD g ct.1 (MapTile.staticTile ct.2))
    (List.replicate sz.1 (List.replicate sz.2 MapTile.none))

/-- Map.__init__: load the arena, build the initial map, clear all per-match
references (opponents, position, description, menhir, closestMist). -/
def Map.ofArena (ad : ArenaDescription) : Map where
  MAPSIZE := ad.size
  map := initMapGrid ad.size ad.terrain
  opponentsAlive := 0
  description := none
  position := none
  opponents := []
  closestMist := none
  menhir := none

/-- Python read self.map[c.x][c.y] with full Python index semantics. -/
def Map.gridGet (m : Map) (c : Coords) : Except PyErr MapTile := do
  let row ← pyGet m.map c.x
  pyGet row c.y

/-- Total read of self.map[c.x][c.y]; used only where the source guards the
access with isInMap, under which it agrees with Map.gridGet. -/
def Map.gridGetD (m : Map) (c : Coords) : MapTile :=
  if 0 ≤ c.x ∧ 0 ≤ c.y then
    ((m.map.get? c.x.toNat).bind (fun row => row.get? c.y.toNat)).getD
      MapTile.none
  else MapTile.none

/-- Map.isInMap from the source. -/
def Map.isInMap (m : Map) (c : Coords) : Bool :=
  c.x < (m.MAPSIZE.1 : Int) && 0 ≤ c.x && c.y < (m.MAPSIZE.2 : Int) && 0 ≤ c.y

/-- Map.taxiDistance from the source. -/
def taxiDistance (root target : Coords) : Nat :=
  (root.x - target.x).natAbs + (root.y - target.y).natAbs

/-- Map.getNeighbours: the four adjacent coordinates in the fixed order
+x, -x, +y, -y, kept when in bounds and (passable and not misted, or any
non-empty mode). -/
def Map.getNeighbours (m : Map) (root : Coords) (mode : String) : List Coords :=
  ([⟨root.x + 1, root.y⟩, ⟨root.x - 1, root.y⟩,
    ⟨root.x, root.y + 1⟩, ⟨root.x, root.y - 1⟩] : List Coords).filter
    (fun nw => m.isInMap nw &&
      ((tilePassable (m.gridGetD nw) && !tileIsMist (m.gridGetD nw)) ||
        mode != ""))

/-- Map.getTargetFace: the facing that moves from X to Y; raises (the
source's WRONG TARGET FACE exception) only when both components of the
difference are non-zero. -/
def Map.getTargetFace (X Y : Coords) : Except PyErr Facing :=
  let x := X.x - Y.x
  let y := X.y - Y.y
  if x = 0 then .ok (if y > 0 then Facing.UP else Facing.DOWN)
  else if y ≠ 0 then .error .wrongTargetFace
  else .ok (if x > 0 then Facing.LEFT else Facing.RIGHT)

/-- Map.dirChange: turn actions and the new facing for one step. -/
def Map.dirChange (current : Coords) (face : Facing) (step : Coords) :
    Except PyErr (List Action × Facing) := do
  let target_face ← Map.getTargetFace current step
  if target_face = face then
    return ([], face)
  else if ((target_face = Facing.UP ∨ target_face = Facing.DOWN) ∧
           (face = Facing.UP ∨ face = Facing.DOWN)) ∨
          ((target_face = Facing.RIGHT ∨ target_face = Facing.LEFT) ∧
           (face = Facing.RIGHT ∨ face = Facing.LEFT)) then
    return ([Action.TURN_RIGHT, Action.TURN_RIGHT], target_face)
  else if [face, target_face] ∈
      ([[Facing.UP, Facing.RIGHT], [Facing.RIGHT, Facing.DOWN],
        [Facing.DOWN, Facing.LEFT], [Facing.LEFT, Facing.UP]] :
        List (List Facing)) then
    return ([Action.TURN_RIGHT], target_face)
  else
    return ([Action.TURN_LEFT], target_face)

/-- The loop body of Map.getActions over the remaining path. -/
def Map.getActionsGo (cur : Coords) (face : Facing) (path : List Coords)
    (acc : List Action) : Except PyErr (List Action) :=
  match path with
  | [] => .ok acc
  | next :: rest => do
      let (dirs, face') ← Map.dirChange cur face next
      Map.getActionsGo next face' rest (acc ++ dirs ++ [Action.STEP_FORWARD])

/-- Map.getActions: actions to walk the path, starting from
self.description.facing (AttributeError when description is None). -/
def Map.getActions (m : Map) (position : Coords) (path : List Coords) :
    Except PyErr (List Action) :=
  match m.description with
  | none => .error .attributeError
  | some d => Map.getActionsGo position d.facing path []

/-- Map.targetFound: does coordinate v satisfy the target?  Mirrors the
source's sequential type dispatch, including the unconditional tile read
and the attribute accesses that can raise. -/
def Map.targetFound (m : Map) (v : Coords) (target : Target) :
    Except PyErr Bool :=
  match target with
  | .str s =>
      if s = "passable" then do
        let tile ← m.gridGet v
        let p ← passableAttr tile
        .ok (p && !tileIsMist tile)
      else do
        let _ ← m.gridGet v
        .ok false
  | .coords c =>
      if v.x = c.x ∧ v.y = c.y then .ok true
      else do
        let _ ← m.gridGet v
        .ok false
  | .tileDesc ty => do
      let tile ← m.gridGet v
      let tt ← typeAttr tile
      .ok (tt == ty)
  | .weapon nm => do
      let tile ← m.gridGet v
      let lt ← lootDescAttr tile
      .ok (lt == some nm)
  | .consumable nm => do
      let tile ← m.gridGet v
      let cs ← consumableAttr tile
      .ok (cs == some nm)
  | .effect ty => do
      let tile ← m.gridGet v
      let effs ← effectsAttr tile
      .ok (effs.any (fun e => e == ty))

/-- An entry of the Visited array: Python None, the unvisited marker 0, or
the parent coordinate (the root stores itself). -/
inductive VEntry where
  | none
  | zero
  | parent (c : Coords)
  deriving DecidableEq, Repr

/-- Total read of Visited[c.x][c.y]; the source guards every such read with
isInMap (enqueued cells come from getNeighbours). -/
def vget (vis : List (List VEntry)) (c : Coords) : VEntry :=
  if 0 ≤ c.x ∧ 0 ≤ c.y then
    ((vis.get? c.x.toNat).bind (fun row => row.get? c.y.toNat)).getD
      VEntry.none
  else VEntry.none

/-- Total write of Visited[c.x][c.y]; same guard discipline as vget. -/
def vset (vis : List (List VEntry)) (c : Coords) (e : VEntry) :
    List (List VEntry) :=
  if 0 ≤ c.x ∧ 0 ≤ c.y then
    match vis.get? c.x.toNat with
    | some row => vis.set c.x.toNat (row.set c.y.toNat e)
    | none => vis
  else vis

/-- The parent-walking loop of shortestPath reconstructing the coordinate
path; a non-parent entry models the crash the source would hit on a
corrupted Visited array. -/
def rebuildPath (vis : List (List VEntry)) :
    Nat → Coords → List Coords → Except PyErr (List Coords)
  | 0, _, _ => .error .fuelOut
  | fuel + 1, v, path =>
      match vget vis v with
      | VEntry.parent p =>
          if p = v then .ok path
          else rebuildPath vis fuel p (path ++ [p])
      | _ => .error .attributeError

/-- The while condition radius is None or r <= radius. -/
def radOk (radius : Option Nat) (r : Nat) : Bool :=
  match radius with
  | none => true
  | some rad => r ≤ rad

/-- The neighbour loop of shortestPath: enqueue each yet-unvisited
neighbour p of v, recording v as its parent. -/
def enqueue (v : Coords) (vis : List (List VEntry)) (q : List Coords) :
    List Coords → List (List VEntry) × List Coords
  | [] => (vis, q)
  | p :: rest =>
      if vget vis p = VEntry.zero then
        enqueue v (vset vis p (VEntry.parent v)) (q ++ [p]) rest
      else
        enqueue v vis q rest

/-- Fuel bound used for the source's while loops; proved sufficient below. -/
def Map.fuelBound (m : Map) : Nat := m.MAPSIZE.1 * m.MAPSIZE.2 + 1

/-- The BFS loop of Map.shortestPath.  Besides the source's result it also
returns the list of popped (expanded) cells, which the code discards; it is
carried only so that theorems can speak about what the search expanded. -/
def Map.bfsAux (m : Map) (target : Target) (mode : String)
    (radius : Option Nat) (root : Coords) :
    Nat → List (List VEntry) → List Coords → Nat → List Coords →
    (Except PyErr (List Action × Option Coords)) × List Coords
  | 0, _, _, _, pops => (.error .fuelOut, pops)
  | fuel + 1, vis, q, r, pops =>
      match q with
      | [] => (.ok ([], m.position), pops)
      | v :: qrest =>
          if radOk radius r then
            let pops' := pops ++ [v]
            match m.targetFound v target with
            | .error e => (.error e, pops')
            | .ok true =>
                ((match rebuildPath vis m.fuelBound v [v] with
                  | .error e => .error e
                  | .ok l =>
                      match m.getActions root l.dropLast.reverse with
                      | .error e => .error e
                      | .ok acts => .ok (acts, some v)), pops')
            | .ok false =>
                let vq := enqueue v vis qrest (m.getNeighbours v mode)
                m.bfsAux target mode radius root fuel vq.1 vq.2 (r + 1) pops'
          else (.ok ([], m.position), pops)

/-- The initial Visited array: 0 where the map has a tile, None elsewhere. -/
def Map.visInit (m : Map) : List (List VEntry) :=
  m.map.map (fun col => col.map
    (fun t => if t = MapTile.none then VEntry.none else VEntry.zero))

/-- Map.shortestPath: BFS from root for the target, optional pop budget
radius; returns the action list and the reached coordinate, or the empty
list and self.position when nothing was found. -/
def Map.shortestPath (m : Map) (root : Coords) (target : Target)
    (radius : Option Nat) (mode : String) :
    Except PyErr (List Action × Option Coords) :=
  match pySet2 m.visInit root (VEntry.parent root) with
  | .error e => .error e
  | .ok vis1 => (m.bfsAux target mode radius root m.fuelBound vis1 [root] 0 []).1

/-- The cells Map.shortestPath pops (expands), in order. -/
def Map.bfsExpanded (m : Map) (root : Coords) (target : Target)
    (radius : Option Nat) (mode : String) : List Coords :=
  match pySet2 m.visInit root (VEntry.parent root) with
  | .error _ => []
  | .ok vis1 => (m.bfsAux target mode radius root m.fuelBound vis1 [root] 0 []).2

/-- Map.findTarget: shortestPath from self.position (AttributeError-like
failure when the position was never set, as in the source). -/
def Map.findTarget (m : Map) (target : Target) (radius : Option Nat) :
    Except PyErr (List Action × Option Coords) :=
  match m.position with
  | none => .error .typeError
  | some p => m.shortestPath p target radius ""

/-- Modelled from the spec: gupb.model.characters.ChampionKnowledge - the
observation: own position, number of living champions, visible tiles. -/
structure ChampionKnowledge where
  position : Coords
  no_of_champions_alive : Nat
  visible_tiles : List (Coords × TileDesc)
  deriving DecidableEq, Repr

/-- Python dict read visible_tiles[pos] (KeyError when absent). -/
def lookupTiles (l : List (Coords × TileDesc)) (c : Coords) :
    Except PyErr TileDesc :=
  match l.find? (fun p => p.1 = c) with
  | some p => .ok p.2
  | none => .error .keyError

/-- The visible-tiles loop of Map.update: write each tile, record the
menhir coordinate the first time a menhir tile is seen. -/
def Map.updateLoop (mp : List (List MapTile)) (menhir : Option Coords) :
    List (Coords × TileDesc) →
    Except PyErr (List (List MapTile) × Option Coords)
  | [] => .ok (mp, menhir)
  | (c, t) :: rest => do
      let mp' ← pySet2 mp c (MapTile.descTile t)
      let menhir' := if menhir = none ∧ t.type = "menhir" then some c
                     else menhir
      Map.updateLoop mp' menhir' rest

/-- Map.update from the source: set position, read own tile's character as
description, count opponents, merge all visible tiles, record the menhir. -/
def Map.update (m : Map) (knowledge : ChampionKnowledge) : Except PyErr Map := do
  let selfTile ← lookupTiles knowledge.visible_tiles knowledge.position
  let mpMenhir ← Map.updateLoop m.map m.menhir knowledge.visible_tiles
  .ok { m with
        position := some knowledge.position,
        description := selfTile.character,
        opponentsAlive := (knowledge.no_of_champions_alive : Int) - 1,
        map := mpMenhir.1,
        menhir := mpMenhir.2 }

/-- The KnowledgeBase state: map base, round counter, queued actions and
their goal, and the tileNeighbourhood constant (16). -/
structure KnowledgeBase where
  mapBase : Option Map
  round_counter : Nat
  actionsToMake : List Action
  actionsTarget : Option Coords
  tileNeighbourhood : Nat
  deriving DecidableEq, Repr

/-- KnowledgeBase.__init__. -/
def KnowledgeBase.init : KnowledgeBase where
  mapBase := none
  round_counter := 0
  actionsToMake := []
  actionsTarget := none
  tileNeighbourhood := 16

/-- Python attribute chain self.mapBase.\<something\> when mapBase is None. -/
def mapBaseAttr (kb : KnowledgeBase) : Except PyErr Map :=
  match kb.mapBase with
  | none => .error .attributeError
  | some m => .ok m

/-- Python attribute chain self.description.facing on the map. -/
def descAttr (m : Map) : Except PyErr ChampionDesc :=
  match m.description with
  | none => .error .attributeError
  | some d => .ok d

/-- Python use of self.position in coordinate arithmetic. -/
def posAttr (m : Map) : Except PyErr Coords :=
  match m.position with
  | none => .error .typeError
  | some p => .ok p

/-- Python len() of the tuple returned as a target coordinate: a Coords
namedtuple always has length 2; len(None) raises TypeError. -/
def pyLenOptCoords : Option Coords → Except PyErr Nat
  | none => .error .typeError
  | some _ => .ok 2

/-- KnowledgeBase.checkPossibleAction: turn right before an impassable
tile, otherwise a random pick from the 6-entry list that weights
STEP_FORWARD four times; rng is the random index. -/
def KnowledgeBase.checkPossibleAction (inFrontTile : MapTile) (rng : Nat) :
    Action :=
  if !tilePassable inFrontTile then Action.TURN_RIGHT
  else ([Action.TURN_LEFT, Action.TURN_RIGHT, Action.STEP_FORWARD,
         Action.STEP_FORWARD, Action.STEP_FORWARD,
         Action.STEP_FORWARD]).getD (rng % 6) Action.TURN_RIGHT

/-- KnowledgeBase.stepPossible: a STEP_FORWARD is possible iff the tile in
front is passable and not misted; any other action always is. -/
def KnowledgeBase.stepPossible (m : Map) (step : Action) :
    Except PyErr Bool :=
  if step = Action.STEP_FORWARD then do
    let d ← descAttr m
    let p ← posAttr m
    let frontTile ← m.gridGet (d.facing.value + p)
    .ok (!(!tilePassable frontTile || tileIsMist frontTile))
  else .ok true

/-- The nextStep-is-None tail of followTarget: clear the queue and target,
recompute the tile in front, fall back to checkPossibleAction. -/
def KnowledgeBase.followFallback (kb : KnowledgeBase) (m : Map) (rng : Nat) :
    Except PyErr (Action × KnowledgeBase) := do
  let kb2 := { kb with actionsToMake := ([] : List Action),
                       actionsTarget := (none : Option Coords) }
  let d ← descAttr m
  let p ← posAttr m
  let ift ← m.gridGet (d.facing.value + p)
  .ok (KnowledgeBase.checkPossibleAction ift rng, kb2)

/-- KnowledgeBase.followTarget: pop the queued action; when it is an
infeasible forward step, drop the whole queue and goal and fall back. -/
def KnowledgeBase.followTarget (kb : KnowledgeBase) (m : Map) (rng : Nat) :
    Except PyErr (Action × KnowledgeBase) :=
  match kb.actionsToMake with
  | [] => KnowledgeBase.followFallback kb m rng
  | next :: rest => do
      let kb1 := { kb with actionsToMake := rest }
      let sp ← KnowledgeBase.stepPossible m next
      if sp then .ok (next, kb1)
      else KnowledgeBase.followFallback kb1 m rng

/-- The try body of KnowledgeBase.choice: the eager potion search, then the
priority chain combat, forced scan, queued plan, pickup adoption, menhir
seeking, local fallback. -/
def KnowledgeBase.choiceTry (kb : KnowledgeBase) (m : Map)
    (inFrontTile : MapTile) (rng : Nat) :
    Except PyErr (Action × KnowledgeBase) := do
  let ft ← m.findTarget (Target.consumable "potion")
            (some kb.tileNeighbourhood)
  let potionPath := ft.1
  let potionTile := ft.2
  let ch ← characterAttr inFrontTile
  if ch.isSome then
    .ok (Action.ATTACK, kb)
  else if kb.round_counter < 3 then
    .ok (Action.TURN_RIGHT, { kb with round_counter := kb.round_counter + 1 })
  else if kb.actionsToMake.length > 0 then
    KnowledgeBase.followTarget kb m rng
  else do
    let pickup ← (if potionPath ≠ [] then do
                    let n ← pyLenOptCoords potionTile
                    pure (decide (n < kb.tileNeighbourhood))
                  else pure false)
    if pickup then
      KnowledgeBase.followTarget
        { kb with actionsToMake := potionPath, actionsTarget := potionTile }
        m rng
    else
      match m.menhir with
      | some mc => do
          let ft2 ← m.findTarget (Target.coords mc) none
          let kb2 := { kb with actionsToMake := ft2.1,
                               actionsTarget := ft2.2 }
          if kb2.actionsToMake.length > kb.tileNeighbourhood then
            KnowledgeBase.followTarget kb2 m rng
          else
            .ok (KnowledgeBase.checkPossibleAction inFrontTile rng,
                 { kb2 with actionsToMake := ([] : List Action),
                            actionsTarget := (none : Option Coords) })
      | none =>
          .ok (KnowledgeBase.checkPossibleAction inFrontTile rng, kb)

/-- KnowledgeBase.choice: compute the tile in front (outside the try), run
the try body - forced to fail when inj is set, modelling an injected
failure in steps 3 to 5 - and on any failure of the body return the
checkPossibleAction fallback, as the source's bare except does.  Inside the
try, every operation that can fail raises before the branch it belongs to
mutates any state (given the in-front access already succeeded), so the
state returned by the handler is the entry state. -/
def KnowledgeBase.choice (kb : KnowledgeBase) (rng : Nat) (inj : Bool) :
    Except PyErr (Action × KnowledgeBase) := do
  let m ← mapBaseAttr kb
  let d ← descAttr m
  let p ← posAttr m
  let inFrontCoords := d.facing.value + p
  let inFrontTile ← m.gridGet inFrontCoords
  match (if inj then (Except.error PyErr.injected :
                       Except PyErr (Action × KnowledgeBase))
         else KnowledgeBase.choiceTry kb m inFrontTile rng) with
  | .ok res => .ok res
  | .error _ =>
      .ok (KnowledgeBase.checkPossibleAction inFrontTile rng, kb)

/-- KnowledgeBase.update: delegate to the map base. -/
def KnowledgeBase.update (kb : KnowledgeBase)
    (knowledge : ChampionKnowledge) : Except PyErr KnowledgeBase := do
  let m ← mapBaseAttr kb
  let m' ← m.update knowledge
  .ok { kb with mapBase := some m' }

/-- KnowledgeBase.reset from the source: replace the map base with a fresh
Map built from the arena description; nothing else is touched. -/
def KnowledgeBase.reset (kb : KnowledgeBase) (ad : ArenaDescription) :
    KnowledgeBase :=
  { kb with mapBase := some (Map.ofArena ad) }

/-- AresController.decide: update the knowledge base with the observation,
then ask it for a choice. -/
def AresController.decide (kb : KnowledgeBase)
    (knowledge : ChampionKnowledge) (rng : Nat) (inj : Bool) :
    Except PyErr (Action × KnowledgeBase) := do
  let kb1 ← KnowledgeBase.update kb knowledge
  KnowledgeBase.choice kb1 rng inj

/-! ### Concrete instances used by counterexamples and witnesses -/

/-- A plain observed land tile. -/
def landTile : TileDesc := ⟨"land", none, none, [], none⟩

/-- An observed wall tile (impassable). -/
def wallTile : TileDesc := ⟨"wall", none, none, [], none⟩

/-- An observed land tile with a potion on it. -/
def potionLand : TileDesc := ⟨"land", none, none, [], some "potion"⟩

/-- An observed land tile with an opponent on it. -/
def occupiedLand : TileDesc := ⟨"land", none, some ⟨Facing.DOWN⟩, [], none⟩

/-- A WxH grid of observed tiles given by a coordinate function. -/
def mkGrid (w h : Nat) (f : Nat → Nat → TileDesc) : List (List MapTile) :=
  (List.range w).map (fun i =>
    (List.range h).map (fun j => MapTile.descTile (f i j)))

/-- 3x3 all-land map, agent at (1,1) facing UP, an opponent directly in
front at (1,0). -/
def mapFrontFoe : Map where
  MAPSIZE := (3, 3)
  map := mkGrid 3 3 (fun i j => if i = 1 ∧ j = 0 then occupiedLand
                                else landTile)
  opponentsAlive := 1
  description := some ⟨Facing.UP⟩
  position := some ⟨1, 1⟩
  opponents := []
  closestMist := none
  menhir := none

/-- 3x3 map, agent at (1,1) facing UP into a wall at (1,0), a potion at
(0,1). -/
def mapStaleStep : Map where
  MAPSIZE := (3, 3)
  map := mkGrid 3 3 (fun i j =>
    if i = 1 ∧ j = 0 then wallTile
    else if i = 0 ∧ j = 1 then potionLand
    else landTile)
  opponentsAlive := 0
  description := some ⟨Facing.UP⟩
  position := some ⟨1, 1⟩
  opponents := []
  closestMist := none
  menhir := none

/-- 6x5 map whose only passable cells form a staircase corridor from (0,0)
to (5,4); a potion sits at the far end (5,4).  The walk needs 9 forward
moves and 8 turns, 17 actions in total. -/
def mapStairs : Map where
  MAPSIZE := (6, 5)
  map := mkGrid 6 5 (fun i j =>
    if i = j ∨ i = j + 1 then
      (if i = 5 ∧ j = 4 then potionLand else landTile)
    else wallTile)
  opponentsAlive := 0
  description := some ⟨Facing.RIGHT⟩
  position := some ⟨0, 0⟩
  opponents := []
  closestMist := none
  menhir := none

/-- 3x3 all-land map, agent at (1,1) standing on a potion. -/
def mapSelfPotion : Map where
  MAPSIZE := (3, 3)
  map := mkGrid 3 3 (fun i j => if i = 1 ∧ j = 1 then potionLand
                                else landTile)
  opponentsAlive := 0
  description := some ⟨Facing.UP⟩
  position := some ⟨1, 1⟩
  opponents := []
  closestMist := none
  menhir := none

/-- 3x3 all-land map with the recorded position (2,2), used to call
shortestPath with a root different from self.position. -/
def mapPosCorner : Map where
  MAPSIZE := (3, 3)
  map := mkGrid 3 3 (fun _ _ => landTile)
  opponentsAlive := 0
  description := some ⟨Facing.UP⟩
  position := some ⟨2, 2⟩
  opponents := []
  closestMist := none
  menhir := none

/-- 4x4 all-land map, agent at (0,0) facing LEFT. -/
def mapOpen4 : Map where
  MAPSIZE := (4, 4)
  map := mkGrid 4 4 (fun _ _ => landTile)
  opponentsAlive := 0
  description := some ⟨Facing.LEFT⟩
  position := some ⟨0, 0⟩
  opponents := []
  closestMist := none
  menhir := none

/-- A fresh-match knowledge base over the front-foe map. -/
def kbFoe : KnowledgeBase := ⟨some mapFrontFoe, 0, [], none, 16⟩

/-- 3x3 all-land map, agent at (1,1) facing UP, nobody ahead. -/
def mapNoFoe : Map where
  MAPSIZE := (3, 3)
  map := mkGrid 3 3 (fun _ _ => landTile)
  opponentsAlive := 1
  description := some ⟨Facing.UP⟩
  position := some ⟨1, 1⟩
  opponents := []
  closestMist := none
  menhir := none

/-- A fresh-match knowledge base over the no-foe map. -/
def kbNoFoe0 : KnowledgeBase := ⟨some mapNoFoe, 0, [], none, 16⟩

/-- Scan phase over, occupant ahead, one queued step: combat state. -/
def kbFoe5 : KnowledgeBase :=
  ⟨some mapFrontFoe, 5, [Action.STEP_FORWARD], some ⟨0, 0⟩, 16⟩

/-- Scan phase over, nobody ahead, one feasible queued step. -/
def kbResume : KnowledgeBase :=
  ⟨some mapNoFoe, 5, [Action.STEP_FORWARD], some ⟨0, 0⟩, 16⟩

/-- The staircase knowledge base: scan phase over, empty queue. -/
def kbStairs : KnowledgeBase := ⟨some mapStairs, 3, [], none, 16⟩

/-- The 17-action plan the staircase potion search returns: 9 forward
moves and 8 turns. -/
def stairActs : List Action :=
  [Action.STEP_FORWARD, Action.TURN_RIGHT, Action.STEP_FORWARD,
   Action.TURN_LEFT, Action.STEP_FORWARD, Action.TURN_RIGHT,
   Action.STEP_FORWARD, Action.TURN_LEFT, Action.STEP_FORWARD,
   Action.TURN_RIGHT, Action.STEP_FORWARD, Action.TURN_LEFT,
   Action.STEP_FORWARD, Action.TURN_RIGHT, Action.STEP_FORWARD,
   Action.TURN_LEFT, Action.STEP_FORWARD]

/-- The observation delivering the front-foe situation: own tile at (1,1)
with our champion on it, an opponent at (1,0). -/
def obsFoe : ChampionKnowledge :=
  ⟨⟨1, 1⟩, 2,
   [(⟨1, 1⟩, ⟨"land", none, some ⟨Facing.UP⟩, [], none⟩),
    (⟨1, 0⟩, occupiedLand)]⟩

/-- A knowledge base holding a stale two-step forward plan over the
blocked-front map, scan phase over. -/
def kbStale : KnowledgeBase :=
  ⟨some mapStaleStep, 3,
   [Action.STEP_FORWARD, Action.STEP_FORWARD], some ⟨0, 0⟩, 16⟩

/-- A knowledge base that already played: round counter 3, a queued step
and goal, the front-foe map as its base. -/
def kbOld : KnowledgeBase :=
  ⟨some mapFrontFoe, 3, [Action.STEP_FORWARD], some ⟨2, 2⟩, 16⟩

/-- A fresh 2x2 arena for the next match. -/
def adNew : ArenaDescription :=
  ⟨"isolated_shrine", (2, 2),
   [(⟨0, 0⟩, ⟨"land", true, none, none, [], none⟩)]⟩

/-! ### Helper lemmas -/

instance exceptDecEq {ε α : Type} [DecidableEq ε] [DecidableEq α] :
    DecidableEq (Except ε α) := fun a b =>
  match a, b with
  | .error e, .error e' =>
      if h : e = e' then isTrue (by rw [h])
      else isFalse (by intro hh; cases hh; exact h rfl)
  | .ok v, .ok v' =>
      if h : v = v' then isTrue (by rw [h])
      else isFalse (by intro hh; cases hh; exact h rfl)
  | .error _, .ok _ => isFalse (by intro hh; cases hh)
  | .ok _, .error _ => isFalse (by intro hh; cases hh)

theorem okBind {α β : Type} (a : α) (f : α → Except PyErr β) :
    (Except.ok a >>= f : Except PyErr β) = f a := rfl

theorem errBind {α β : Type} (e : PyErr) (f : α → Except PyErr β) :
    ((Except.error e : Except PyErr α) >>= f) = .error e := rfl

theorem pureBind {α β : Type} (a : α) (f : α → Except PyErr β) :
    ((pure a : Except PyErr α) >>= f) = f a := rfl

theorem radOk_zero (radius : Option Nat) : radOk radius 0 = true := by
  cases radius <;> simp [radOk]

/-- Success characterization of a Python list read at a non-negative
index. -/
theorem pyGet_ok {α : Type} {l : List α} {i : Int} {a : α} (hi : 0 ≤ i)
    (h : pyGet l i = .ok a) :
    ∃ hlt : i.toNat < l.length, l.get ⟨i.toNat, hlt⟩ = a := by
  have hnx : ¬ i < 0 := by omega
  unfold pyGet at h
  simp only [hnx, if_false] at h
  split at h
  case isTrue hc => exact ⟨hc.2, by cases h; rfl⟩
  case isFalse => cases h

/-- Success characterization of a Python list write at a non-negative
index. -/
theorem pySet_ok {α : Type} {l l' : List α} {i : Int} {a : α} (hi : 0 ≤ i)
    (h : pySet l i a = .ok l') :
    i.toNat < l.length ∧ l' = l.set i.toNat a := by
  have hnx : ¬ i < 0 := by omega
  unfold pySet at h
  simp only [hnx, if_false] at h
  split at h
  case isTrue hc => exact ⟨hc.2, by cases h; rfl⟩
  case isFalse => cases h

/-- The cell just written by a successful Python grid write reads back. -/
theorem vget_after_pySet2 {g g' : List (List VEntry)} {c : Coords}
    {e : VEntry} (hx : 0 ≤ c.x) (hy : 0 ≤ c.y)
    (h : pySet2 g c e = .ok g') : vget g' c = e := by
  unfold pySet2 at h
  simp only [bind, Except.bind] at h
  cases hrow : pyGet g c.x with
  | error err => rw [hrow] at h; cases h
  | ok row =>
    rw [hrow] at h
    dsimp only at h
    cases hrow' : pySet row c.y e with
    | error err => rw [hrow'] at h; cases h
    | ok row' =>
      rw [hrow'] at h
      obtain ⟨hx1, hrw⟩ := pyGet_ok hx hrow
      obtain ⟨hy1, hy2⟩ := pySet_ok hy hrow'
      obtain ⟨hx2, hg'⟩ := pySet_ok hx h
      unfold vget
      simp only [hx, hy, and_self, if_true]
      rw [hg', List.get?_set_eq_of_lt _ (by simpa using hx2)]
      have : row'.get? c.y.toNat = some e := by
        rw [hy2]
        exact List.get?_set_eq_of_lt _ hy1
      simp [← List.get?_eq_getElem?, this]

/-- Closed form of getTargetFace with the subtractions resolved. -/
theorem getTargetFace_eq (X Y : Coords) :
    Map.getTargetFace X Y =
      if X.x = Y.x then .ok (if Y.y < X.y then Facing.UP else Facing.DOWN)
      else if X.y ≠ Y.y then .error .wrongTargetFace
      else .ok (if Y.x < X.x then Facing.LEFT else Facing.RIGHT) := by
  unfold Map.getTargetFace
  simp only [sub_eq_zero, sub_pos, sub_ne_zero]

/-! ### Claim theorems -/

/-- C9 counterexample: contrary to the claim, a difference vector that is
not one of the four unit directions need not raise: the zero vector and
the non-unit axis-aligned vector (0,-3) both silently yield DOWN. -/
theorem zero_vector_silently_faces_down :
    Map.getTargetFace ⟨1, 1⟩ ⟨1, 1⟩ = .ok Facing.DOWN ∧
    Map.getTargetFace ⟨1, 1⟩ ⟨1, 4⟩ = .ok Facing.DOWN := ⟨rfl, rfl⟩

/-- C9 (amended): the path-to-action translation raises the fatal
invariant-violation error exactly when both components of the step differ
(a diagonal vector); axis-aligned vectors - the zero vector and non-unit
ones included - silently produce a facing, and each of the four unit steps
yields, without raising, the facing that walks it. -/
theorem targetFace_raises_iff_diagonal :
    ∀ X Y : Coords,
      ((Map.getTargetFace X Y = .error PyErr.wrongTargetFace) ↔
        (X.x ≠ Y.x ∧ X.y ≠ Y.y)) ∧
      (∀ f : Facing, Map.getTargetFace X (X + f.value) = .ok f) := by
  intro X Y
  constructor
  · rw [getTargetFace_eq]
    constructor
    · intro h
      split at h
      · cases h
      · split at h
        · next hx hy => exact ⟨hx, hy⟩
        · cases h
    · rintro ⟨hx, hy⟩
      rw [if_neg hx, if_pos hy]
  · intro f
    cases f <;> simp [getTargetFace_eq, Facing.value, Coords.add_def]

/-- C2 (code bug): KnowledgeBase.reset only replaces the map base.  On a
knowledge base that already played (round counter 3, a queued step and a
queued goal), reset with a fresh arena leaves the counter, the queue and
the goal exactly as they were, and only the map is rebuilt. -/
theorem reset_leaks_turn_state :
    (KnowledgeBase.reset kbOld adNew).round_counter = 3 ∧
    (KnowledgeBase.reset kbOld adNew).actionsToMake = [Action.STEP_FORWARD] ∧
    (KnowledgeBase.reset kbOld adNew).actionsTarget = some ⟨2, 2⟩ ∧
    (KnowledgeBase.reset kbOld adNew).mapBase = some (Map.ofArena adNew) :=
  ⟨rfl, rfl, rfl, rfl⟩

/-- C10 (amended): when the goal predicate already holds at the agent's
own cell, findTarget returns the empty action list together with the
position - byte for byte the same value the search-miss sentinel has, so
the two cases are not distinguishable from the return value. -/
theorem goal_at_root_returns_sentinel (m : Map) (p : Coords)
    (target : Target) (radius : Option Nat) (d : ChampionDesc)
    (vis1 : List (List VEntry))
    (hp : m.position = some p)
    (hd : m.description = some d)
    (hx : 0 ≤ p.x) (hy : 0 ≤ p.y)
    (hset : pySet2 m.visInit p (VEntry.parent p) = .ok vis1)
    (htf : m.targetFound p target = .ok true) :
    m.findTarget target radius = .ok ([], some p) := by
  unfold Map.findTarget
  rw [hp]
  dsimp only
  unfold Map.shortestPath
  rw [hset]
  dsimp only
  have hroot : vget vis1 p = VEntry.parent p := vget_after_pySet2 hx hy hset
  show (m.bfsAux target "" radius p (m.MAPSIZE.1 * m.MAPSIZE.2 + 1)
          vis1 [p] 0 []).1 = _
  unfold Map.bfsAux
  simp only [radOk_zero]
  rw [htf]
  dsimp only
  rw [show m.fuelBound = m.MAPSIZE.1 * m.MAPSIZE.2 + 1 from rfl]
  simp only [rebuildPath, hroot, if_pos rfl]
  unfold Map.getActions
  rw [hd]
  rfl

/-- Reduction of choice to its try body and handler once the pre-try reads
succeed. -/
theorem choice_eq_handler (kb : KnowledgeBase) (m : Map) (d : ChampionDesc)
    (p : Coords) (ift : MapTile) (rng : Nat)
    (hm : kb.mapBase = some m) (hd : m.description = some d)
    (hp : m.position = some p)
    (hft : m.gridGet (d.facing.value + p) = .ok ift) :
    KnowledgeBase.choice kb rng false =
      (match KnowledgeBase.choiceTry kb m ift rng with
       | .ok res => .ok res
       | .error _ =>
           .ok (KnowledgeBase.checkPossibleAction ift rng, kb)) := by
  simp only [KnowledgeBase.choice, mapBaseAttr, hm, okBind]
  simp only [descAttr, hd, okBind]
  simp only [posAttr, hp, okBind]
  simp only [hft, okBind]
  simp only [Bool.false_eq_true, if_false]

/-- The cleared-queue fallback of followTarget, with its reads resolved. -/
theorem followFallback_eq (kb : KnowledgeBase) (m : Map)
    (d : ChampionDesc) (p : Coords) (ift : MapTile) (rng : Nat)
    (hd : m.description = some d) (hp : m.position = some p)
    (hft : m.gridGet (d.facing.value + p) = .ok ift) :
    KnowledgeBase.followFallback kb m rng =
      .ok (KnowledgeBase.checkPossibleAction ift rng,
           { kb with actionsToMake := [], actionsTarget := none }) := by
  simp only [KnowledgeBase.followFallback, descAttr, hd, okBind]
  simp only [posAttr, hp, okBind]
  simp only [hft, okBind]

/-- stepPossible with its reads resolved. -/
theorem stepPossible_eq (m : Map) (d : ChampionDesc) (p : Coords)
    (ift : MapTile) (a : Action)
    (hd : m.description = some d) (hp : m.position = some p)
    (hft : m.gridGet (d.facing.value + p) = .ok ift) :
    KnowledgeBase.stepPossible m a =
      .ok (if a = Action.STEP_FORWARD then
             !(!tilePassable ift || tileIsMist ift)
           else true) := by
  unfold KnowledgeBase.stepPossible
  by_cases hsf : a = Action.STEP_FORWARD
  · rw [if_pos hsf, if_pos hsf]
    simp only [descAttr, hd, okBind]
    simp only [posAttr, hp, okBind]
    simp only [hft, okBind]
  · rw [if_neg hsf, if_neg hsf]

/-- followTarget never raises once the map's description, position and the
tile in front are readable. -/
theorem followTarget_isOk (kb : KnowledgeBase) (m : Map)
    (d : ChampionDesc) (p : Coords) (ift : MapTile) (rng : Nat)
    (hd : m.description = some d) (hp : m.position = some p)
    (hft : m.gridGet (d.facing.value + p) = .ok ift) :
    ∃ a kb2, KnowledgeBase.followTarget kb m rng = .ok (a, kb2) := by
  unfold KnowledgeBase.followTarget
  cases hq : kb.actionsToMake with
  | nil => exact ⟨_, _, followFallback_eq kb m d p ift rng hd hp hft⟩
  | cons nxt rest =>
      dsimp only
      rw [stepPossible_eq m d p ift nxt hd hp hft]
      simp only [okBind]
      rcases Bool.eq_false_or_eq_true
          (if nxt = Action.STEP_FORWARD then
             !(!tilePassable ift || tileIsMist ift)
           else true) with hb | hb
      · rw [if_pos hb]
        exact ⟨nxt, _, rfl⟩
      · have hn : ¬ ((if nxt = Action.STEP_FORWARD then
              !(!tilePassable ift || tileIsMist ift)
            else true) = true) := by rw [hb]; simp
        rw [if_neg hn]
        exact ⟨_, _, followFallback_eq _ m d p ift rng hd hp hft⟩

/-- followTarget pops a feasible queued action. -/
theorem followTarget_pops (kb : KnowledgeBase) (m : Map) (rng : Nat)
    (a : Action) (rest : List Action)
    (hq : kb.actionsToMake = a :: rest)
    (hsp : KnowledgeBase.stepPossible m a = .ok true) :
    KnowledgeBase.followTarget kb m rng =
      .ok (a, { kb with actionsToMake := rest }) := by
  unfold KnowledgeBase.followTarget
  rw [hq]
  dsimp only
  rw [hsp]
  simp only [okBind, if_pos rfl]
  simp

/-- followTarget on an infeasible queued forward step: the queue and the
goal are dropped and the local fallback acts. -/
theorem followTarget_stale (kb : KnowledgeBase) (m : Map)
    (d : ChampionDesc) (p : Coords) (ift : MapTile) (rng : Nat)
    (a : Action) (rest : List Action)
    (hd : m.description = some d) (hp : m.position = some p)
    (hft : m.gridGet (d.facing.value + p) = .ok ift)
    (hq : kb.actionsToMake = a :: rest)
    (hsp : KnowledgeBase.stepPossible m a = .ok false) :
    KnowledgeBase.followTarget kb m rng =
      .ok (KnowledgeBase.checkPossibleAction ift rng,
           { kb with actionsToMake := [], actionsTarget := none }) := by
  unfold KnowledgeBase.followTarget
  rw [hq]
  dsimp only
  rw [hsp]
  simp only [okBind]
  rw [if_neg (by simp)]
  exact followFallback_eq _ m d p ift rng hd hp hft

/-- The try body of choice with the eager potion search and the in-front
occupant read resolved. -/
theorem choiceTry_eq (kb : KnowledgeBase) (m : Map) (ift : MapTile)
    (rng : Nat) (pp : List Action) (t : Option Coords)
    (chv : Option ChampionDesc)
    (hpot : m.findTarget (Target.consumable "potion")
              (some kb.tileNeighbourhood) = .ok (pp, t))
    (hch : characterAttr ift = .ok chv) :
    KnowledgeBase.choiceTry kb m ift rng =
      (if chv.isSome then .ok (Action.ATTACK, kb)
       else if kb.round_counter < 3 then
         .ok (Action.TURN_RIGHT,
              { kb with round_counter := kb.round_counter + 1 })
       else if kb.actionsToMake.length > 0 then
         KnowledgeBase.followTarget kb m rng
       else do
         let pickup ← (if pp ≠ [] then do
                         let n ← pyLenOptCoords t
                         pure (decide (n < kb.tileNeighbourhood))
                       else pure false)
         if pickup then
           KnowledgeBase.followTarget
             { kb with actionsToMake := pp, actionsTarget := t } m rng
         else
           match m.menhir with
           | some mc => do
               let ft2 ← m.findTarget (Target.coords mc) none
               let kb2 := { kb with actionsToMake := ft2.1,
                                    actionsTarget := ft2.2 }
               if kb2.actionsToMake.length > kb.tileNeighbourhood then
                 KnowledgeBase.followTarget kb2 m rng
               else
                 .ok (KnowledgeBase.checkPossibleAction ift rng,
                      { kb2 with actionsToMake := ([] : List Action),
                                 actionsTarget := (none : Option Coords) })
           | none =>
               .ok (KnowledgeBase.checkPossibleAction ift rng, kb)) := by
  unfold KnowledgeBase.choiceTry
  rw [hpot]
  simp only [okBind]
  rw [hch]
  simp only [okBind]

/-- C5: whenever the tile directly ahead has a known occupant, choice
returns ATTACK and leaves the whole knowledge-base state - in particular
the queued action sequence and its goal - untouched; and on a later turn
with no occupant ahead, the forced scan over and a feasible queued head,
the queued plan resumes: choice pops and returns exactly that head. -/
theorem attack_preempts_and_preserves_queue :
    (∀ (kb : KnowledgeBase) (m : Map) (d c : ChampionDesc) (p : Coords)
       (ift : MapTile) (rng : Nat) (pp : List Action) (t : Option Coords),
       kb.mapBase = some m → m.description = some d →
       m.position = some p →
       m.gridGet (d.facing.value + p) = .ok ift →
       m.findTarget (Target.consumable "potion")
         (some kb.tileNeighbourhood) = .ok (pp, t) →
       characterAttr ift = .ok (some c) →
       KnowledgeBase.choice kb rng false = .ok (Action.ATTACK, kb)) ∧
    (∀ (kb : KnowledgeBase) (m : Map) (d : ChampionDesc) (p : Coords)
       (ift : MapTile) (rng : Nat) (pp : List Action) (t : Option Coords)
       (a : Action) (rest : List Action),
       kb.mapBase = some m → m.description = some d →
       m.position = some p →
       m.gridGet (d.facing.value + p) = .ok ift →
       m.findTarget (Target.consumable "potion")
         (some kb.tileNeighbourhood) = .ok (pp, t) →
       characterAttr ift = .ok none →
       ¬ kb.round_counter < 3 →
       kb.actionsToMake = a :: rest →
       KnowledgeBase.stepPossible m a = .ok true →
       KnowledgeBase.choice kb rng false =
         .ok (a, { kb with actionsToMake := rest })) := by
  constructor
  · intro kb m d c p ift rng pp t hm hd hp hft hpot hch
    rw [choice_eq_handler kb m d p ift rng hm hd hp hft,
        choiceTry_eq kb m ift rng pp t (some c) hpot hch]
    rfl
  · intro kb m d p ift rng pp t a rest hm hd hp hft hpot hch hrc hq hsp
    rw [choice_eq_handler kb m d p ift rng hm hd hp hft,
        choiceTry_eq kb m ift rng pp t none hpot hch]
    simp only [Option.isSome_none, Bool.false_eq_true, if_false]
    rw [if_neg hrc, if_pos (by simp [hq]),
        followTarget_pops kb m rng a rest hq hsp]

/-- C4 counterexample: on the very first turn (round counter 0) with an
opponent on the tile directly ahead, choice returns ATTACK, not
TURN_RIGHT, and the round counter is not incremented. -/
theorem forced_scan_preempted_by_attack :
    KnowledgeBase.choice kbFoe 0 false = .ok (Action.ATTACK, kbFoe) ∧
    Action.ATTACK ≠ Action.TURN_RIGHT ∧ kbFoe.round_counter = 0 := by
  refine ⟨by decide, by decide, rfl⟩

/-- C4 (amended): while the round counter is below 3, the combat check
permitting - no known occupant on the tile directly ahead - choice returns
TURN_RIGHT and increments the round counter, whatever else the observation
contains. -/
theorem forced_scan_turn_right (kb : KnowledgeBase) (m : Map)
    (d : ChampionDesc) (p : Coords) (ift : MapTile) (rng : Nat)
    (pp : List Action) (t : Option Coords)
    (hm : kb.mapBase = some m) (hd : m.description = some d)
    (hp : m.position = some p)
    (hft : m.gridGet (d.facing.value + p) = .ok ift)
    (hpot : m.findTarget (Target.consumable "potion")
              (some kb.tileNeighbourhood) = .ok (pp, t))
    (hch : characterAttr ift = .ok none)
    (hrc : kb.round_counter < 3) :
    KnowledgeBase.choice kb rng false =
      .ok (Action.TURN_RIGHT,
           { kb with round_counter := kb.round_counter + 1 }) := by
  rw [choice_eq_handler kb m d p ift rng hm hd hp hft,
      choiceTry_eq kb m ift rng pp t none hpot hch]
  simp only [Option.isSome_none, Bool.false_eq_true, if_false]
  rw [if_pos hrc]

/-- C6 counterexample: with a stale queued forward step into a wall and a
potion one step to the left, choice does not fall through to
pickup-seeking (whose plan starts with TURN_LEFT): it discards the queue
and returns the local fallback TURN_RIGHT in the same call. -/
theorem stale_step_falls_to_local_fallback :
    KnowledgeBase.choice kbStale 0 false =
      .ok (Action.TURN_RIGHT,
           { kbStale with actionsToMake := [], actionsTarget := none }) ∧
    mapStaleStep.findTarget (Target.consumable "potion") (some 16) =
      .ok ([Action.TURN_LEFT, Action.STEP_FORWARD], some ⟨0, 1⟩) ∧
    Action.TURN_RIGHT ≠ Action.TURN_LEFT := by
  refine ⟨by decide, by decide, by decide⟩

/-- C6 (amended): when the queued plan's next action is a forward move
into a now-impassable or misted cell, choice discards the entire remaining
queue and clears the queued goal, but it does not re-evaluate goals in the
same call: it returns the local fallback checkPossibleAction on the tile
in front. -/
theorem stale_forward_clears_queue (kb : KnowledgeBase) (m : Map)
    (d : ChampionDesc) (p : Coords) (ift : MapTile) (rng : Nat)
    (pp : List Action) (t : Option Coords) (rest : List Action)
    (hm : kb.mapBase = some m) (hd : m.description = some d)
    (hp : m.position = some p)
    (hft : m.gridGet (d.facing.value + p) = .ok ift)
    (hpot : m.findTarget (Target.consumable "potion")
              (some kb.tileNeighbourhood) = .ok (pp, t))
    (hch : characterAttr ift = .ok none)
    (hrc : ¬ kb.round_counter < 3)
    (hq : kb.actionsToMake = Action.STEP_FORWARD :: rest)
    (hsp : KnowledgeBase.stepPossible m Action.STEP_FORWARD = .ok false) :
    KnowledgeBase.choice kb rng false =
      .ok (KnowledgeBase.checkPossibleAction ift rng,
           { kb with actionsToMake := [], actionsTarget := none }) := by
  rw [choice_eq_handler kb m d p ift rng hm hd hp hft,
      choiceTry_eq kb m ift rng pp t none hpot hch]
  simp only [Option.isSome_none, Bool.false_eq_true, if_false]
  rw [if_neg hrc, if_pos (by simp [hq]),
      followTarget_stale kb m d p ift rng Action.STEP_FORWARD rest
        hd hp hft hq hsp]

/-- C3 counterexample: on the staircase map the bounded potion search
returns a 17-action plan - longer than the radius constant 16 - yet
choice adopts it: the source's acceptance guard compares the length of
the 2-element coordinate pair against 16, not the path length. -/
theorem pickup_adopted_beyond_radius :
    mapStairs.findTarget (Target.consumable "potion") (some 16) =
      .ok (stairActs, some ⟨5, 4⟩) ∧
    stairActs.length = 17 ∧ 16 < stairActs.length ∧
    KnowledgeBase.choice kbStairs 0 false =
      .ok (Action.STEP_FORWARD,
           { kbStairs with actionsToMake := stairActs.tail,
                           actionsTarget := some ⟨5, 4⟩ }) := by
  refine ⟨by decide, by decide, by decide, by decide⟩

/-- C3 (amended): in decision step 4 the consumable goal is adopted as the
new queued plan - and its first step executed through followTarget - if
and only if the bounded search returned a non-empty plan; the radius
comparison in the source tests len of the coordinate pair (always 2)
against tileNeighbourhood = 16 and is vacuously true, so no path-length
condition is enforced. -/
theorem pickup_adoption_iff_found (kb : KnowledgeBase) (m : Map)
    (d : ChampionDesc) (p : Coords) (ift : MapTile) (rng : Nat)
    (pp : List Action) (tc : Coords)
    (hm : kb.mapBase = some m) (hd : m.description = some d)
    (hp : m.position = some p)
    (hft : m.gridGet (d.facing.value + p) = .ok ift)
    (htn : kb.tileNeighbourhood = 16)
    (hpot : m.findTarget (Target.consumable "potion")
              (some kb.tileNeighbourhood) = .ok (pp, some tc))
    (hch : characterAttr ift = .ok none)
    (hrc : ¬ kb.round_counter < 3)
    (hq : kb.actionsToMake = []) :
    (pp ≠ [] →
      KnowledgeBase.choice kb rng false =
        KnowledgeBase.followTarget
          { kb with actionsToMake := pp, actionsTarget := some tc }
          m rng) ∧
    (pp = [] → m.menhir = none →
      KnowledgeBase.choice kb rng false =
        .ok (KnowledgeBase.checkPossibleAction ift rng, kb)) := by
  rw [choice_eq_handler kb m d p ift rng hm hd hp hft,
      choiceTry_eq kb m ift rng pp (some tc) none hpot hch]
  simp only [Option.isSome_none, Bool.false_eq_true, if_false]
  rw [if_neg hrc, if_neg (by simp [hq])]
  constructor
  · intro hpp
    rw [if_pos hpp]
    simp only [pyLenOptCoords, okBind, pureBind]
    rw [if_pos (show decide (2 < kb.tileNeighbourhood) = true by
          rw [htn]; rfl)]
    obtain ⟨a, kb2, hok⟩ := followTarget_isOk
      { kb with actionsToMake := pp, actionsTarget := some tc }
      m d p ift rng hd hp hft
    rw [hok]
  · intro hpp hmen
    rw [if_neg (by simp [hpp])]
    simp only [pureBind]
    rw [if_neg (by simp), hmen]

/-- C1: under the engine's observation guarantees (the own tile is
observed and carries the champion, the tile in front indexes into the
grid), a decide call returns ok with an action of the fixed enumerated
set, whatever the internal state and whether or not a failure is injected
into the try body covering decision steps 3 to 5: the bare except maps
every such failure to the local fallback. -/
theorem decide_always_acts (kb kb1 : KnowledgeBase)
    (obs : ChampionKnowledge) (m : Map) (d : ChampionDesc) (p : Coords)
    (ift : MapTile) (rng : Nat) (inj : Bool)
    (hupd : KnowledgeBase.update kb obs = .ok kb1)
    (hm : kb1.mapBase = some m) (hd : m.description = some d)
    (hp : m.position = some p)
    (hft : m.gridGet (d.facing.value + p) = .ok ift) :
    ∃ a kb2, AresController.decide kb obs rng inj = .ok (a, kb2) ∧
      (a = Action.TURN_LEFT ∨ a = Action.TURN_RIGHT ∨
       a = Action.STEP_FORWARD ∨ a = Action.ATTACK ∨
       a = Action.DO_NOTHING) := by
  have hmem : ∀ a : Action,
      a = Action.TURN_LEFT ∨ a = Action.TURN_RIGHT ∨
      a = Action.STEP_FORWARD ∨ a = Action.ATTACK ∨
      a = Action.DO_NOTHING := by
    intro a
    cases a <;> simp
  unfold AresController.decide
  rw [hupd]
  simp only [okBind]
  unfold KnowledgeBase.choice
  simp only [mapBaseAttr, hm, okBind]
  simp only [descAttr, hd, okBind]
  simp only [posAttr, hp, okBind]
  simp only [hft, okBind]
  cases inj with
  | true =>
      exact ⟨KnowledgeBase.checkPossibleAction ift rng, kb1, rfl, hmem _⟩
  | false =>
      simp only [Bool.false_eq_true, if_false]
      cases htry : KnowledgeBase.choiceTry kb1 m ift rng with
      | error e =>
          exact ⟨KnowledgeBase.checkPossibleAction ift rng, kb1, rfl,
                 hmem _⟩
      | ok res =>
          exact ⟨res.1, res.2, rfl, hmem _⟩

/-- C1 witness: the front-foe state with an injected failure still acts. -/
theorem decide_always_acts_witness :
    ∃ a kb2, AresController.decide kbFoe obsFoe 0 true = .ok (a, kb2) ∧
      (a = Action.TURN_LEFT ∨ a = Action.TURN_RIGHT ∨
       a = Action.STEP_FORWARD ∨ a = Action.ATTACK ∨
       a = Action.DO_NOTHING) :=
  decide_always_acts kbFoe _ obsFoe _ _ _ _ 0 true rfl rfl rfl rfl rfl

/-- C3 witness: the staircase state instantiates the adoption theorem. -/
theorem pickup_adoption_iff_found_witness :
    (stairActs ≠ [] →
      KnowledgeBase.choice kbStairs 0 false =
        KnowledgeBase.followTarget
          { kbStairs with actionsToMake := stairActs,
                          actionsTarget := some ⟨5, 4⟩ }
          mapStairs 0) ∧
    (stairActs = [] → mapStairs.menhir = none →
      KnowledgeBase.choice kbStairs 0 false =
        .ok (KnowledgeBase.checkPossibleAction
               (MapTile.descTile landTile) 0, kbStairs)) :=
  pickup_adoption_iff_found kbStairs mapStairs ⟨Facing.RIGHT⟩ ⟨0, 0⟩
    (MapTile.descTile landTile) 0 stairActs ⟨5, 4⟩
    rfl rfl rfl rfl rfl (by decide) rfl (by decide) rfl

/-- C4 witness: in a fresh match with nobody ahead the scan fires. -/
theorem forced_scan_turn_right_witness :
    KnowledgeBase.choice kbNoFoe0 0 false =
      .ok (Action.TURN_RIGHT,
           { kbNoFoe0 with
               round_counter := kbNoFoe0.round_counter + 1 }) :=
  forced_scan_turn_right kbNoFoe0 mapNoFoe ⟨Facing.UP⟩ ⟨1, 1⟩
    (MapTile.descTile landTile) 0 [] (some ⟨1, 1⟩)
    rfl rfl rfl rfl (by decide) rfl (by decide)

/-- C5 witness: combat pre-empts with the queue intact, and the queued
plan resumes once nobody is ahead. -/
theorem attack_preempts_witness :
    KnowledgeBase.choice kbFoe5 0 false = .ok (Action.ATTACK, kbFoe5) ∧
    KnowledgeBase.choice kbResume 0 false =
      .ok (Action.STEP_FORWARD, { kbResume with actionsToMake := [] }) :=
  ⟨attack_preempts_and_preserves_queue.1 kbFoe5 mapFrontFoe
     ⟨Facing.UP⟩ ⟨Facing.DOWN⟩ ⟨1, 1⟩ (MapTile.descTile occupiedLand) 0
     [] (some ⟨1, 1⟩) rfl rfl rfl rfl (by decide) rfl,
   attack_preempts_and_preserves_queue.2 kbResume mapNoFoe
     ⟨Facing.UP⟩ ⟨1, 1⟩ (MapTile.descTile landTile) 0 [] (some ⟨1, 1⟩)
     Action.STEP_FORWARD [] rfl rfl rfl rfl (by decide) rfl
     (by decide) rfl (by decide)⟩

/-- C6 witness: the stale-plan state instantiates the clearing theorem. -/
theorem stale_forward_clears_queue_witness :
    KnowledgeBase.choice kbStale 0 false =
      .ok (KnowledgeBase.checkPossibleAction
             (MapTile.descTile wallTile) 0,
           { kbStale with actionsToMake := [], actionsTarget := none }) :=
  stale_forward_clears_queue kbStale mapStaleStep ⟨Facing.UP⟩ ⟨1, 1⟩
    (MapTile.descTile wallTile) 0 [Action.TURN_LEFT, Action.STEP_FORWARD]
    (some ⟨0, 1⟩) [Action.STEP_FORWARD]
    rfl rfl rfl rfl (by decide) rfl (by decide) rfl (by decide)

/-- C10 counterexample: on a 3x3 all-land map with a potion under the
agent at (1,1), the goal-satisfied-at-root call and a goal that exists
nowhere evaluate to the identical value ([], (1,1)) - the caller cannot
tell a zero-move success from the no-path sentinel. -/
theorem root_goal_equals_miss_sentinel :
    mapSelfPotion.findTarget (Target.consumable "potion") none =
      .ok ([], some ⟨1, 1⟩) ∧
    mapSelfPotion.findTarget (Target.consumable "banana") none =
      .ok ([], some ⟨1, 1⟩) ∧
    mapSelfPotion.findTarget (Target.consumable "potion") none =
      mapSelfPotion.findTarget (Target.consumable "banana") none := by
  refine ⟨by decide, by decide, by decide⟩

/-- C10 witness: the potion-under-the-agent state instantiates the
sentinel theorem. -/
theorem goal_at_root_returns_sentinel_witness :
    mapSelfPotion.findTarget (Target.consumable "potion") none =
      .ok ([], some ⟨1, 1⟩) :=
  goal_at_root_returns_sentinel mapSelfPotion ⟨1, 1⟩
    (Target.consumable "potion") none ⟨Facing.UP⟩ _
    rfl rfl (by decide) (by decide) rfl rfl

/-- C7 counterexample: a missing target makes shortestPath return the
knowledge base's recorded position (2,2), not the root (0,0) it was
called with. -/
theorem miss_returns_position_not_root :
    mapPosCorner.shortestPath ⟨0, 0⟩ (Target.coords ⟨5, 5⟩) (some 1) "" =
      .ok ([], some ⟨2, 2⟩) ∧
    (⟨2, 2⟩ : Coords) ≠ (⟨0, 0⟩ : Coords) := ⟨by decide, by decide⟩

/-- A path of n getNeighbours-steps from root to c over the map's searched
subgraph: the specification-level notion of BFS-layer reachability. -/
inductive reach (m : Map) (mode : String) (root : Coords) : Nat → Coords → Prop
  | zero : reach m mode root 0 root
  | step {n : Nat} {b c : Coords} : reach m mode root n b →
      c ∈ m.getNeighbours b mode → reach m mode root (n + 1) c

/-- Membership in the result queue of the enqueue loop comes from the old
queue or from the neighbour list. -/
theorem enqueue_mem_queue {v : Coords} {vis : List (List VEntry)}
    {q : List Coords} {l : List Coords} {c : Coords}
    (h : c ∈ (enqueue v vis q l).2) : c ∈ q ∨ c ∈ l := by
  induction l generalizing vis q with
  | nil => exact Or.inl h
  | cons p rest ih =>
      unfold enqueue at h
      split at h
      · rcases ih h with hq | hl
        · rcases List.mem_append.1 hq with hq | hq
          · exact Or.inl hq
          · exact Or.inr (by simp at hq; simp [hq])
        · exact Or.inr (List.mem_cons_of_mem _ hl)
      · rcases ih h with hq | hl
        · exact Or.inl hq
        · exact Or.inr (List.mem_cons_of_mem _ hl)

/-- Every cell the radius-bounded loop pops lies within radius layers of
the root, provided the queue and the already-popped list do. -/
theorem bfsAux_pops_reach (m : Map) (target : Target) (mode : String)
    (radN : Nat) (root : Coords) :
    ∀ (fuel : Nat) (vis : List (List VEntry)) (q : List Coords) (r : Nat)
      (pops : List Coords),
      (∀ c ∈ q, ∃ k, k ≤ r ∧ reach m mode root k c) →
      (∀ c ∈ pops, ∃ k, k ≤ radN ∧ reach m mode root k c) →
      ∀ c ∈ (m.bfsAux target mode (some radN) root fuel vis q r pops).2,
        ∃ k, k ≤ radN ∧ reach m mode root k c := by
  intro fuel
  induction fuel with
  | zero => intro vis q r pops _ hpops c hc; exact hpops c hc
  | succ fuel ih =>
      intro vis q r pops hq hpops c hc
      unfold Map.bfsAux at hc
      cases q with
      | nil => exact hpops c hc
      | cons v qrest =>
          dsimp only at hc
          by_cases hrad : radOk (some radN) r = true
          · rw [if_pos hrad] at hc
            have hvr : ∃ k, k ≤ radN ∧ reach m mode root k v := by
              obtain ⟨k, hk, hr⟩ := hq v (List.mem_cons_self v qrest)
              exact ⟨k, le_trans hk (by simpa [radOk] using hrad), hr⟩
            have hpops' : ∀ c ∈ pops ++ [v],
                ∃ k, k ≤ radN ∧ reach m mode root k c := by
              intro c hc
              rcases List.mem_append.1 hc with hc | hc
              · exact hpops c hc
              · simp at hc; subst hc; exact hvr
            cases htf : m.targetFound v target with
            | error e => rw [htf] at hc; exact hpops' c hc
            | ok b =>
                cases b with
                | true => rw [htf] at hc; exact hpops' c hc
                | false =>
                    rw [htf] at hc
                    dsimp only at hc
                    refine ih _ _ _ _ ?_ hpops' c hc
                    intro c2 hc2
                    rcases enqueue_mem_queue hc2 with hc2 | hc2
                    · obtain ⟨k, hk, hr⟩ :=
                        hq c2 (List.mem_cons_of_mem _ hc2)
                      exact ⟨k, Nat.le_succ_of_le hk, hr⟩
                    · obtain ⟨k, hk, hr⟩ := hq v (List.mem_cons_self v qrest)
                      exact ⟨k + 1, Nat.succ_le_succ hk,
                             reach.step hr hc2⟩
          · rw [if_neg hrad] at hc
            exact hpops c hc

/-- When no popped cell satisfies the goal, the loop ends in the explicit
miss return: the empty list and the recorded position. -/
theorem bfsAux_miss (m : Map) (target : Target) (mode : String)
    (rad : Option Nat) (root : Coords) :
    ∀ (fuel : Nat) (vis : List (List VEntry)) (q : List Coords) (r : Nat)
      (pops : List Coords) (acts : List Action) (res : Option Coords),
      (m.bfsAux target mode rad root fuel vis q r pops).1 =
        .ok (acts, res) →
      (∀ c ∈ (m.bfsAux target mode rad root fuel vis q r pops).2,
        m.targetFound c target ≠ .ok true) →
      acts = [] ∧ res = m.position := by
  intro fuel
  induction fuel with
  | zero => intro vis q r pops acts res h1 _; cases h1
  | succ fuel ih =>
      intro vis q r pops acts res h1 h2
      unfold Map.bfsAux at h1 h2
      cases q with
      | nil =>
          cases h1
          exact ⟨rfl, rfl⟩
      | cons v qrest =>
          dsimp only at h1 h2
          by_cases hrad : radOk rad r = true
          · rw [if_pos hrad] at h1 h2
            cases htf : m.targetFound v target with
            | error e => rw [htf] at h1; cases h1
            | ok b =>
                cases b with
                | true =>
                    rw [htf] at h2
                    exact absurd htf
                      (h2 v (List.mem_append.2 (Or.inr (by simp))))
                | false =>
                    rw [htf] at h1 h2
                    dsimp only at h1 h2
                    exact ih _ _ _ _ _ _ h1 h2
          · rw [if_neg hrad] at h1
            cases h1
            exact ⟨rfl, rfl⟩

/-- C7 (amended): with a radius cutoff r the search expands no cell beyond
r BFS layers from the root (every popped cell is reachable in at most r
neighbour steps), and whenever no expanded cell satisfies the goal the
call returns the empty action sequence together with the agent's recorded
position - which is the root at every call site, since findTarget always
passes self.position as the root, but not the root argument in general. -/
theorem radius_bounds_expansion_and_miss :
    (∀ (m : Map) (root : Coords) (target : Target) (radN : Nat)
       (mode : String),
       ∀ c ∈ m.bfsExpanded root target (some radN) mode,
         ∃ k, k ≤ radN ∧ reach m mode root k c) ∧
    (∀ (m : Map) (root : Coords) (target : Target) (rad : Option Nat)
       (mode : String) (acts : List Action) (res : Option Coords),
       m.shortestPath root target rad mode = .ok (acts, res) →
       (∀ c ∈ m.bfsExpanded root target rad mode,
         m.targetFound c target ≠ .ok true) →
       acts = [] ∧ res = m.position) := by
  constructor
  · intro m root target radN mode c hc
    unfold Map.bfsExpanded at hc
    cases hset : pySet2 m.visInit root (VEntry.parent root) with
    | error e => rw [hset] at hc; cases hc
    | ok vis1 =>
        rw [hset] at hc
        refine bfsAux_pops_reach m target mode radN root _ _ _ _ _
          ?_ ?_ c hc
        · intro c2 hc2
          simp at hc2
          subst hc2
          exact ⟨0, Nat.zero_le _, reach.zero⟩
        · intro c2 hc2
          cases hc2
  · intro m root target rad mode acts res h1 h2
    unfold Map.shortestPath at h1
    unfold Map.bfsExpanded at h2
    cases hset : pySet2 m.visInit root (VEntry.parent root) with
    | error e => rw [hset] at h1; cases h1
    | ok vis1 =>
        rw [hset] at h1 h2
        exact bfsAux_miss m target mode rad root _ _ _ _ _ _ _ h1 h2

/-- C7 witness: on the corner-position map with pop budget 1, the popped
cell (1,0) lies within one layer of the root, and a miss returns the
sentinel with the recorded position. -/
theorem radius_bounds_expansion_witness :
    (∃ k, k ≤ 1 ∧ reach mapPosCorner "" ⟨0, 0⟩ k ⟨1, 0⟩) ∧
    (([] : List Action) = [] ∧
     (some ⟨2, 2⟩ : Option Coords) = mapPosCorner.position) :=
  ⟨radius_bounds_expansion_and_miss.1 mapPosCorner ⟨0, 0⟩
     (Target.coords ⟨5, 5⟩) 1 "" ⟨1, 0⟩ (by decide),
   radius_bounds_expansion_and_miss.2 mapPosCorner ⟨0, 0⟩
     (Target.coords ⟨5, 5⟩) (some 1) "" [] (some ⟨2, 2⟩)
     (by decide) (by decide)⟩

/-! ### BFS correctness apparatus (used for the path-optimality claim)

The invariant-based verification of Map.shortestPath, radius None, mode
empty, coordinate target: the returned action sequence walks a really
reachable path whose move count equals the least number of neighbour
steps from the root. -/

/-- A Visited cell carrying a parent pointer. -/
def markedAt (vis : List (List VEntry)) (c : Coords) : Prop :=
  ∃ pc, vget vis c = VEntry.parent pc

/-- Is this entry the unvisited marker? -/
def isZeroE : VEntry → Bool
  | VEntry.zero => true
  | _ => false

/-- Is this entry a parent pointer? -/
def isParentE : VEntry → Bool
  | VEntry.parent _ => true
  | _ => false

/-- Entries satisfying p counted over the whole Visited grid. -/
def countGrid (p : VEntry → Bool) (vis : List (List VEntry)) : Nat :=
  (vis.map (fun row => row.countP p)).sum

/-- Unvisited markers counted over the whole Visited grid. -/
def zeroCount (vis : List (List VEntry)) : Nat := countGrid isZeroE vis

/-- Parent entries counted over the whole Visited grid. -/
def markedCount (vis : List (List VEntry)) : Nat := countGrid isParentE vis

/-- A non-default vget read certifies the indices are in the lists. -/
theorem vget_present {vis : List (List VEntry)} {c : Coords} {e : VEntry}
    (h : vget vis c = e) (hne : e ≠ VEntry.none) :
    0 ≤ c.x ∧ 0 ≤ c.y ∧
    ∃ row, vis.get? c.x.toNat = some row ∧ row.get? c.y.toNat = some e := by
  unfold vget at h
  split at h
  case isTrue hb =>
    refine ⟨hb.1, hb.2, ?_⟩
    cases hrow : vis.get? c.x.toNat with
    | none =>
        rw [hrow] at h
        simp at h
        exact absurd h.symm hne
    | some row =>
        rw [hrow] at h
        simp only [Option.some_bind] at h
        cases hcol : row.get? c.y.toNat with
        | none =>
            rw [hcol] at h
            simp at h
            exact absurd h.symm hne
        | some e' =>
            rw [hcol] at h
            simp at h
            exact ⟨row, rfl, by rw [hcol, h]⟩
  case isFalse => exact absurd h.symm hne

/-- vset writes through when the cell is present. -/
theorem vget_vset_self {vis : List (List VEntry)} {c : Coords}
    {e0 e : VEntry} (h : vget vis c = e0) (hne : e0 ≠ VEntry.none) :
    vget (vset vis c e) c = e := by
  obtain ⟨hx, hy, row, hrow, hcol⟩ := vget_present h hne
  obtain ⟨hxl, -⟩ := List.get?_eq_some.1 hrow
  obtain ⟨hyl, -⟩ := List.get?_eq_some.1 hcol
  unfold vset
  rw [if_pos ⟨hx, hy⟩, hrow]
  unfold vget
  rw [if_pos ⟨hx, hy⟩]
  rw [List.get?_set_eq_of_lt _ hxl]
  simp only [Option.some_bind]
  rw [List.get?_set_eq_of_lt _ hyl]
  rfl

/-- countP of a list after a point update, against the overwritten
element. -/
theorem countP_set {α : Type} (p : α → Bool) :
    ∀ (l : List α) (j : Nat) (old a : α), l.get? j = some old →
      (l.set j a).countP p + (if p old then 1 else 0) =
        l.countP p + (if p a then 1 else 0) := by
  intro l
  induction l with
  | nil => intro j old a h; cases h
  | cons x xs ih =>
      intro j old a h
      cases j with
      | zero =>
          cases h
          simp only [List.set, List.countP_cons]
          omega
      | succ j =>
          simp only [List.set, List.countP_cons]
          have := ih j old a h
          omega

/-- A sum over rows after a point row update. -/
theorem sum_map_set {α : Type} (f : List α → Nat) :
    ∀ (l : List (List α)) (i : Nat) (row row' : List α),
      l.get? i = some row →
      ((l.set i row').map f).sum + f row = (l.map f).sum + f row' := by
  intro l
  induction l with
  | nil => intro i row row' h; cases h
  | cons x xs ih =>
      intro i row row' h
      cases i with
      | zero =>
          cases h
          simp only [List.set, List.map_cons, List.sum_cons]
          omega
      | succ i =>
          simp only [List.set, List.map_cons, List.sum_cons]
          have := ih i row row' h
          omega

/-- countGrid of a point update, against the overwritten entry. -/
theorem countGrid_vset {vis : List (List VEntry)} {c : Coords}
    {e0 e : VEntry} (h : vget vis c = e0) (hne : e0 ≠ VEntry.none)
    (p : VEntry → Bool) :
    countGrid p (vset vis c e) + (if p e0 then 1 else 0) =
      countGrid p vis + (if p e then 1 else 0) := by
  obtain ⟨hx, hy, row, hrow, hcol⟩ := vget_present h hne
  have hset : vset vis c e = vis.set c.x.toNat (row.set c.y.toNat e) := by
    unfold vset
    rw [if_pos ⟨hx, hy⟩, hrow]
  rw [hset]
  have h1 := sum_map_set (fun r => r.countP p) vis c.x.toNat row
    (row.set c.y.toNat e) hrow
  have h2 := countP_set p row c.y.toNat e0 e hcol
  unfold countGrid
  dsimp only at h1 ⊢
  omega

/-- Writing a parent pointer over an unvisited marker trades one zero
entry for one parent entry. -/
theorem counts_mark {vis : List (List VEntry)} {c : Coords} {v : Coords}
    (h : vget vis c = VEntry.zero) :
    zeroCount (vset vis c (VEntry.parent v)) + 1 = zeroCount vis ∧
    markedCount (vset vis c (VEntry.parent v)) =
      markedCount vis + 1 := by
  have h1 := @countGrid_vset vis c VEntry.zero (VEntry.parent v) h
    (by simp) isZeroE
  have h2 := @countGrid_vset vis c VEntry.zero (VEntry.parent v) h
    (by simp) isParentE
  simp [isZeroE, isParentE] at h1 h2
  constructor
  · simp only [zeroCount]
    omega
  · simp only [markedCount]
    omega

/-- vset leaves every other cell untouched. -/
theorem vget_vset_ne {vis : List (List VEntry)} {c c' : Coords}
    {e : VEntry} (hne : c' ≠ c) :
    vget (vset vis c e) c' = vget vis c' := by
  unfold vset
  by_cases hc : 0 ≤ c.x ∧ 0 ≤ c.y
  · rw [if_pos hc]
    cases hrow : vis.get? c.x.toNat with
    | none => rfl
    | some row =>
        obtain ⟨hxl, -⟩ := List.get?_eq_some.1 hrow
        unfold vget
        by_cases hc' : 0 ≤ c'.x ∧ 0 ≤ c'.y
        · rw [if_pos hc', if_pos hc']
          by_cases hxx : c'.x.toNat = c.x.toNat
          · by_cases hyy : c'.y.toNat = c.y.toNat
            · exfalso
              apply hne
              obtain ⟨x1, y1⟩ := c'
              obtain ⟨x2, y2⟩ := c
              simp only [Coords.mk.injEq]
              dsimp only at hxx hyy hc hc'
              constructor <;> omega
            · rw [hxx, List.get?_set_eq_of_lt _ hxl, hrow]
              simp only [Option.some_bind]
              rw [List.get?_set_ne _ _ (by omega)]
          · rw [List.get?_set_ne _ _ (by omega)]
        · rw [if_neg hc', if_neg hc']
  · rw [if_neg hc]

/-- Closed-form characterization of the enqueue loop over a duplicate-free
neighbour list: the unvisited listed cells get the popped cell recorded as
parent and are appended in order to the queue; the counts trade one zero
for one parent each. -/
theorem enqueue_spec (v : Coords) :
    ∀ (l : List Coords) (vis : List (List VEntry)) (q : List Coords),
      l.Nodup →
      (∀ c, vget (enqueue v vis q l).1 c =
          (if c ∈ l ∧ vget vis c = VEntry.zero then VEntry.parent v
           else vget vis c)) ∧
      (enqueue v vis q l).2 =
        q ++ l.filter (fun p => decide (vget vis p = VEntry.zero)) ∧
      zeroCount (enqueue v vis q l).1 +
        (l.filter (fun p => decide (vget vis p = VEntry.zero))).length =
          zeroCount vis ∧
      markedCount (enqueue v vis q l).1 =
        markedCount vis +
          (l.filter (fun p => decide (vget vis p = VEntry.zero))).length := by
  intro l
  induction l with
  | nil =>
      intro vis q _
      refine ⟨fun c => by simp [enqueue], by simp [enqueue],
              by simp [enqueue], by simp [enqueue]⟩
  | cons p rest ih =>
      intro vis q hnd
      obtain ⟨hpnr, hndr⟩ := List.nodup_cons.1 hnd
      unfold enqueue
      by_cases hz : vget vis p = VEntry.zero
      · rw [if_pos hz]
        obtain ⟨ih1, ih2, ih3, ih4⟩ :=
          ih (vset vis p (VEntry.parent v)) (q ++ [p]) hndr
        have hfeq : rest.filter
            (fun c => decide (vget (vset vis p (VEntry.parent v)) c =
              VEntry.zero)) =
            rest.filter (fun c => decide (vget vis c = VEntry.zero)) := by
          apply List.filter_congr
          intro c hc
          have hcp : c ≠ p := by rintro rfl; exact hpnr hc
          rw [vget_vset_ne hcp]
        have hcm := @counts_mark vis p v hz
        have hfl : (p :: rest).filter
            (fun c => decide (vget vis c = VEntry.zero)) =
            p :: rest.filter (fun c => decide (vget vis c = VEntry.zero)) := by
          simp [List.filter_cons, hz]
        refine ⟨?_, ?_, ?_, ?_⟩
        · intro c
          rw [ih1 c]
          by_cases hcp : c = p
          · subst hcp
            rw [vget_vset_self hz (by simp)]
            rw [if_neg (fun hand => by simpa using hand.2),
                if_pos ⟨List.mem_cons_self _ _, hz⟩]
          · rw [vget_vset_ne hcp]
            by_cases hcr : c ∈ rest
            · simp [hcr, List.mem_cons, hcp]
            · simp [hcr, List.mem_cons, hcp]
        · rw [ih2, hfeq, hfl]
          simp
        · rw [hfl]
          simp only [List.length_cons]
          rw [hfeq] at ih3
          omega
        · rw [hfl]
          simp only [List.length_cons]
          rw [hfeq] at ih4
          omega
      · rw [if_neg hz]
        obtain ⟨ih1, ih2, ih3, ih4⟩ := ih vis q hndr
        have hfl : (p :: rest).filter
            (fun c => decide (vget vis c = VEntry.zero)) =
            rest.filter (fun c => decide (vget vis c = VEntry.zero)) := by
          simp [List.filter_cons, hz]
        refine ⟨?_, ?_, ?_, ?_⟩
        · intro c
          rw [ih1 c]
          by_cases hcp : c = p
          · subst hcp
            rw [if_neg (fun hand => hz hand.2),
                if_neg (fun hand => hz hand.2)]
          · by_cases hcr : c ∈ rest
            · simp [hcr, List.mem_cons, hcp]
            · simp [hcr, List.mem_cons, hcp]
        · rw [ih2, hfl]
        · rw [hfl]; exact ih3
        · rw [hfl]; exact ih4

/-- Arena well-formedness: the grid's list dimensions agree with MAPSIZE
(the source guarantees this because initMap allocates exactly that and
update only overwrites cells). -/
def Map.WF (m : Map) : Prop :=
  m.map.length = m.MAPSIZE.1 ∧ ∀ row ∈ m.map, row.length = m.MAPSIZE.2

instance (m : Map) : Decidable m.WF := by
  unfold Map.WF
  infer_instance

/-- The four neighbour candidates are pairwise distinct, so the neighbour
list has no duplicates. -/
theorem nbrs_nodup (m : Map) (root : Coords) (mode : String) :
    (m.getNeighbours root mode).Nodup := by
  apply List.Nodup.filter
  refine List.nodup_cons.2 ⟨?_, List.nodup_cons.2 ⟨?_,
    List.nodup_cons.2 ⟨?_, List.nodup_singleton _⟩⟩⟩
  · simp only [List.mem_cons, List.not_mem_nil, Coords.mk.injEq, not_or,
               or_false]
    refine ⟨?_, ?_, ?_⟩ <;> rintro ⟨h1, h2⟩ <;> omega
  · simp only [List.mem_cons, List.not_mem_nil, Coords.mk.injEq, not_or,
               or_false]
    refine ⟨?_, ?_⟩ <;> rintro ⟨h1, h2⟩ <;> omega
  · simp only [List.mem_cons, List.not_mem_nil, Coords.mk.injEq, not_or,
               or_false]
    rintro ⟨h1, h2⟩
    omega

/-- Every neighbour is one of the four unit-step coordinates. -/
theorem nbrs_shape {m : Map} {root c : Coords} {mode : String}
    (h : c ∈ m.getNeighbours root mode) :
    c = ⟨root.x + 1, root.y⟩ ∨ c = ⟨root.x - 1, root.y⟩ ∨
    c = ⟨root.x, root.y + 1⟩ ∨ c = ⟨root.x, root.y - 1⟩ := by
  have := List.mem_of_mem_filter h
  simpa using this

/-- With the default mode, every neighbour is in bounds, passable and
mist-free. -/
theorem nbrs_passable {m : Map} {root c : Coords}
    (h : c ∈ m.getNeighbours root "") :
    m.isInMap c = true ∧ tilePassable (m.gridGetD c) = true ∧
    tileIsMist (m.gridGetD c) = false := by
  have := List.of_mem_filter h
  simp only [Bool.and_eq_true, Bool.or_eq_true, bne_iff_ne, ne_eq,
             not_true_eq_false, or_false, Bool.not_eq_true'] at this
  exact ⟨this.1, this.2.1, this.2.2⟩

/-- getTargetFace succeeds on every neighbour step. -/
theorem nbrs_targetFace {m : Map} {a b : Coords} {mode : String}
    (h : b ∈ m.getNeighbours a mode) :
    ∃ tf, Map.getTargetFace a b = .ok tf := by
  rcases nbrs_shape h with hb | hb | hb | hb <;> subst hb <;>
    rw [getTargetFace_eq] <;> dsimp only
  · rw [if_neg (by omega), if_neg (by omega)]
    exact ⟨_, rfl⟩
  · rw [if_neg (by omega), if_neg (by omega)]
    exact ⟨_, rfl⟩
  · rw [if_pos rfl]
    exact ⟨_, rfl⟩
  · rw [if_pos rfl]
    exact ⟨_, rfl⟩

/-- dirChange succeeds whenever getTargetFace does, and never emits a
forward move among the turn prefix. -/
theorem dirChange_ok {a b : Coords} {face tf : Facing}
    (h : Map.getTargetFace a b = .ok tf) :
    ∃ dirs f', Map.dirChange a face b = .ok (dirs, f') ∧
      dirs.count Action.STEP_FORWARD = 0 := by
  unfold Map.dirChange
  rw [h]
  simp only [okBind]
  split
  · exact ⟨_, _, rfl, rfl⟩
  · split
    · exact ⟨_, _, rfl, rfl⟩
    · split
      · exact ⟨_, _, rfl, rfl⟩
      · exact ⟨_, _, rfl, rfl⟩

/-- A marked Visited cell indexes into the map grid, given matching
dimensions, so the Python tile read succeeds there. -/
theorem marked_gridGet_ok {m : Map} {vis : List (List VEntry)} {c : Coords}
    (hdims : vis.map List.length = m.map.map List.length)
    (h : markedAt vis c) : ∃ tile, m.gridGet c = .ok tile := by
  obtain ⟨pc, hpc⟩ := h
  obtain ⟨hx, hy, row, hrow, hcol⟩ := vget_present hpc (by simp)
  obtain ⟨hyl, -⟩ := List.get?_eq_some.1 hcol
  have h1 : (vis.map List.length).get? c.x.toNat = some row.length := by
    rw [List.get?_map, hrow]
    rfl
  have h2 : (m.map.get? c.x.toNat).map List.length = some row.length := by
    rw [← List.get?_map, ← hdims]
    exact h1
  obtain ⟨mrow, hmrow, hmlen⟩ := Option.map_eq_some'.1 h2
  obtain ⟨hxm, hget⟩ := List.get?_eq_some.1 hmrow
  have hg1 : pyGet m.map c.x = .ok mrow := by
    unfold pyGet
    have hnx : ¬ c.x < 0 := by omega
    simp only [hnx, if_false]
    rw [dif_pos ⟨hx, hxm⟩, hget]
  have hg2 : ∃ e, pyGet mrow c.y = .ok e := by
    unfold pyGet
    have hny : ¬ c.y < 0 := by omega
    simp only [hny, if_false]
    rw [dif_pos ⟨hy, by omega⟩]
    exact ⟨_, rfl⟩
  obtain ⟨e, hg2⟩ := hg2
  refine ⟨e, ?_⟩
  unfold Map.gridGet
  rw [hg1]
  simp only [okBind]
  exact hg2

/-- Setting a list cell to the value it already holds is the identity. -/
theorem set_get_self {α : Type} {l : List α} {i : Nat} {a : α}
    (h : l.get? i = some a) : l.set i a = l := by
  apply List.ext_get?
  intro n
  by_cases hn : n = i
  · subst hn
    rw [List.get?_set_eq_of_lt _ (List.get?_eq_some.1 h).1, h]
  · rw [List.get?_set_ne _ _ (fun hh => hn hh.symm)]

/-- Decomposition of a successful Python grid write at a non-negative
coordinate. -/
theorem pySet2_decomp {α : Type} {g g' : List (List α)} {c : Coords}
    {e : α} (hx : 0 ≤ c.x) (hy : 0 ≤ c.y)
    (h : pySet2 g c e = .ok g') :
    ∃ row, g.get? c.x.toNat = some row ∧ c.y.toNat < row.length ∧
      g' = g.set c.x.toNat (row.set c.y.toNat e) := by
  unfold pySet2 at h
  simp only [bind, Except.bind] at h
  cases hrow : pyGet g c.x with
  | error err => rw [hrow] at h; cases h
  | ok row =>
      rw [hrow] at h
      dsimp only at h
      cases hrow' : pySet row c.y e with
      | error err => rw [hrow'] at h; cases h
      | ok row' =>
          rw [hrow'] at h
          obtain ⟨hx1, hrw⟩ := pyGet_ok hx hrow
          obtain ⟨hy1, hy2⟩ := pySet_ok hy hrow'
          obtain ⟨hx2, hg'⟩ := pySet_ok hx h
          refine ⟨row, ?_, hy1, ?_⟩
          · rw [List.get?_eq_get hx1, hrw]
          · rw [hg', hy2]

/-- A successful Python grid write equals the guarded vset. -/
theorem pySet2_eq_vset {g g' : List (List VEntry)} {c : Coords}
    {e : VEntry} (hx : 0 ≤ c.x) (hy : 0 ≤ c.y)
    (h : pySet2 g c e = .ok g') : g' = vset g c e := by
  obtain ⟨row, hrow, hyl, hg'⟩ := pySet2_decomp hx hy h
  unfold vset
  rw [if_pos ⟨hx, hy⟩, hrow, hg']

/-- A Python grid write does not change the row lengths. -/
theorem pySet2_dims {α : Type} {g g' : List (List α)} {c : Coords} {e : α}
    (hx : 0 ≤ c.x) (hy : 0 ≤ c.y) (h : pySet2 g c e = .ok g') :
    g'.map List.length = g.map List.length := by
  obtain ⟨row, hrow, hyl, hg'⟩ := pySet2_decomp hx hy h
  rw [hg', List.map_set]
  apply set_get_self
  rw [List.get?_map, hrow]
  simp

/-- vset does not change the row lengths either. -/
theorem vset_dims {g : List (List VEntry)} {c : Coords} {e : VEntry} :
    (vset g c e).map List.length = g.map List.length := by
  unfold vset
  split
  · cases hrow : g.get? c.x.toNat with
    | none => rfl
    | some row =>
        rw [List.map_set]
        apply set_get_self
        rw [List.get?_map, hrow]
        simp
  · rfl

/-- The initial Visited entry of a cell mirrors its tile. -/
theorem visInit_vget (m : Map) (c : Coords) :
    vget m.visInit c =
      (if m.gridGetD c = MapTile.none then VEntry.none else VEntry.zero) := by
  unfold Map.visInit vget Map.gridGetD
  by_cases hb : 0 ≤ c.x ∧ 0 ≤ c.y
  · rw [if_pos hb, if_pos hb, List.get?_map]
    cases hrow : m.map.get? c.x.toNat with
    | none => simp
    | some row =>
        simp only [Option.map_some', Option.some_bind, List.get?_map]
        have hopt : ∀ x : Option MapTile,
            (x.map (fun t => if t = MapTile.none then VEntry.none
                             else VEntry.zero)).getD VEntry.none =
              (if x.getD MapTile.none = MapTile.none then VEntry.none
               else VEntry.zero) := by
          intro x
          cases x <;> simp
        exact hopt _
  · rw [if_neg hb, if_neg hb]
    simp

/-- The initial Visited grid has the same dimensions as the map. -/
theorem visInit_dims (m : Map) :
    m.visInit.map List.length = m.map.map List.length := by
  unfold Map.visInit
  rw [List.map_map]
  apply List.map_congr_left
  intro row _
  simp

/-- The initial Visited grid holds no parent pointers. -/
theorem visInit_markedCount (m : Map) : markedCount m.visInit = 0 := by
  unfold markedCount countGrid Map.visInit
  rw [List.map_map]
  apply List.sum_eq_zero
  intro n hn
  obtain ⟨row, -, hrow⟩ := List.mem_map.1 hn
  rw [← hrow]
  simp only [Function.comp]
  rw [List.countP_map]
  apply List.countP_eq_zero.2
  intro t _
  simp only [Function.comp]
  split <;> simp [isParentE]

/-- Sum of row lengths under the WF dimension contract. -/
theorem sum_lengths_of_WF {m : Map} (hWF : m.WF) :
    (m.map.map List.length).sum = m.MAPSIZE.1 * m.MAPSIZE.2 := by
  obtain ⟨hlen, hrows⟩ := hWF
  have : ∀ l : List (List MapTile), (∀ row ∈ l, row.length = m.MAPSIZE.2) →
      (l.map List.length).sum = l.length * m.MAPSIZE.2 := by
    intro l
    induction l with
    | nil => intro _; simp
    | cons r rs ih =>
        intro hr
        simp only [List.map_cons, List.sum_cons, List.length_cons]
        rw [hr r (List.mem_cons_self _ _), ih
          (fun row hrow => hr row (List.mem_cons_of_mem _ hrow))]
        ring
  rw [this m.map hrows, hlen]

/-- countGrid is bounded by the total number of entries. -/
theorem countGrid_le_total (p : VEntry → Bool) (vis : List (List VEntry)) :
    countGrid p vis ≤ (vis.map List.length).sum := by
  unfold countGrid
  induction vis with
  | nil => simp
  | cons row rest ih =>
      simp only [List.map_cons, List.sum_cons]
      exact Nat.add_le_add (List.countP_le_length _) ih

/-- Prepending a reachability path in front of another. -/
theorem reach_trans {m : Map} {mode : String} {a b c : Coords}
    {j i : Nat} (h1 : reach m mode a j b) (h2 : reach m mode b i c) :
    reach m mode a (j + i) c := by
  induction h2 with
  | zero => exact h1
  | step hr hmem ih => exact reach.step ih hmem

/-- A path of positive length ends with a neighbour step. -/
theorem reach_succ_inv {m : Map} {mode : String} {root c : Coords} {k : Nat}
    (h : reach m mode root (k + 1) c) :
    ∃ b, reach m mode root k b ∧ c ∈ m.getNeighbours b mode := by
  cases h with
  | step hr hmem => exact ⟨_, hr, hmem⟩

/-- Two pointwise incompatible predicates cannot together exceed the
length. -/
theorem countP_disjoint_le {α : Type} (p q : α → Bool)
    (hpq : ∀ a, ¬(p a = true ∧ q a = true)) :
    ∀ l : List α, l.countP p + l.countP q ≤ l.length := by
  intro l
  induction l with
  | nil => simp
  | cons x xs ih =>
      simp only [List.countP_cons, List.length_cons]
      have h1 : (if p x = true then 1 else 0) +
          (if q x = true then 1 else 0) ≤ 1 := by
        by_cases hp : p x = true
        · have hq : ¬ q x = true := fun hq => hpq x ⟨hp, hq⟩
          simp [hp, hq]
        · by_cases hq : q x = true
          · simp [hp, hq]
          · simp [hp, hq]
      omega

/-- Zero markers and parent pointers together never exceed the number of
entries. -/
theorem zero_marked_le_total (vis : List (List VEntry)) :
    zeroCount vis + markedCount vis ≤ (vis.map List.length).sum := by
  unfold zeroCount markedCount countGrid
  induction vis with
  | nil => simp
  | cons row rest ih =>
      simp only [List.map_cons, List.sum_cons]
      have := countP_disjoint_le isZeroE isParentE
        (fun a => by cases a <;> simp [isZeroE, isParentE]) row
      omega

/-- A marked cell certifies at least one parent entry. -/
theorem markedCount_pos {vis : List (List VEntry)} {c : Coords}
    (h : markedAt vis c) : 1 ≤ markedCount vis := by
  obtain ⟨pc, hpc⟩ := h
  obtain ⟨hx, hy, row, hrow, hcol⟩ := vget_present hpc (by simp)
  have hmem : VEntry.parent pc ∈ row := List.get?_mem hcol
  have hrowc : 0 < row.countP isParentE :=
    List.countP_pos.2 ⟨_, hmem, by simp [isParentE]⟩
  have hrmem : row.countP isParentE ∈
      vis.map (fun r => r.countP isParentE) :=
    List.mem_map.2 ⟨row, List.get?_mem hrow, rfl⟩
  unfold markedCount countGrid
  calc 1 ≤ row.countP isParentE := hrowc
  _ ≤ (vis.map (fun r => r.countP isParentE)).sum :=
      List.le_sum_of_mem hrmem

/-- enqueue never changes the grid dimensions. -/
theorem enqueue_dims (v : Coords) :
    ∀ (l : List Coords) (vis : List (List VEntry)) (q : List Coords),
      (enqueue v vis q l).1.map List.length = vis.map List.length := by
  intro l
  induction l with
  | nil => intro vis q; rfl
  | cons p rest ih =>
      intro vis q
      unfold enqueue
      split
      · rw [ih, vset_dims]
      · rw [ih]

/-- A constant map is a replicate. -/
theorem map_eq_replicate {α β : Type} {l : List α} {f : α → β} {b : β}
    (h : ∀ x ∈ l, f x = b) :
    l.map f = List.replicate l.length b := by
  induction l with
  | nil => rfl
  | cons x xs ih =>
      simp only [List.map_cons, List.length_cons, List.replicate_succ]
      rw [h x (List.mem_cons_self _ _),
          ih (fun y hy => h y (List.mem_cons_of_mem _ hy))]

/-- The BFS loop invariant for the default mode.  dep is a ghost layer
assignment for marked cells and dq the current frontier layer. -/
structure BfsInv (m : Map) (root : Coords) (dep : Coords → Nat) (dq : Nat)
    (vis : List (List VEntry)) (q : List Coords) (pops : List Coords) :
    Prop where
  dims : vis.map List.length = m.map.map List.length
  root_entry : vget vis root = VEntry.parent root
  dep_root : dep root = 0
  chain : ∀ c pc, vget vis c = VEntry.parent pc → c ≠ root →
      markedAt vis pc ∧ dep c = dep pc + 1 ∧ c ∈ m.getNeighbours pc ""
  reach_dep : ∀ c, markedAt vis c → reach m "" root (dep c) c
  dep_min : ∀ c, markedAt vis c → ∀ k, reach m "" root k c → dep c ≤ k
  sorted : ∃ i j, q.map dep =
      List.replicate i dq ++ List.replicate j (dq + 1) ∧ (q = [] ∨ 1 ≤ i)
  marked_iff : ∀ c, markedAt vis c ↔ (c ∈ pops ∨ c ∈ q)
  expanded : ∀ b ∈ pops, ∀ c ∈ m.getNeighbours b "", markedAt vis c
  comp_lt : ∀ c k, reach m "" root k c → k < dq → c ∈ pops
  comp_le : ∀ c k, reach m "" root k c → k ≤ dq → markedAt vis c
  none_tiles : ∀ c, vget vis c = VEntry.none → m.gridGetD c = MapTile.none
  dep_card : ∀ c, markedAt vis c → dep c + 1 ≤ markedCount vis

/-- The invariant holds at loop entry. -/
theorem inv_init {m : Map} {root : Coords} {vis1 : List (List VEntry)}
    (hx : 0 ≤ root.x) (hy : 0 ≤ root.y)
    (hset : pySet2 m.visInit root (VEntry.parent root) = .ok vis1) :
    BfsInv m root (fun _ => 0) 0 vis1 [root] [] := by
  have hroot : vget vis1 root = VEntry.parent root :=
    vget_after_pySet2 hx hy hset
  have hvset : vis1 = vset m.visInit root (VEntry.parent root) :=
    pySet2_eq_vset hx hy hset
  have hne : ∀ c, c ≠ root → vget vis1 c = vget m.visInit c := by
    intro c hc
    rw [hvset, vget_vset_ne hc]
  have hmarked : ∀ c, markedAt vis1 c ↔ c = root := by
    intro c
    constructor
    · rintro ⟨pc, hpc⟩
      by_contra hcr
      rw [hne c hcr, visInit_vget] at hpc
      split at hpc <;> cases hpc
    · rintro rfl
      exact ⟨_, hroot⟩
  have hzero_reach : ∀ c, reach m "" root 0 c → c = root := by
    intro c h
    cases h
    rfl
  refine ⟨?_, hroot, rfl, ?_, ?_, ?_, ?_, ?_, ?_, ?_, ?_, ?_, ?_⟩
  · rw [pySet2_dims hx hy hset, visInit_dims]
  · intro c pc hpc hcr
    exfalso
    rw [hne c hcr, visInit_vget] at hpc
    split at hpc <;> cases hpc
  · intro c hc
    rw [hmarked c] at hc
    subst hc
    exact reach.zero
  · intro c _ k _
    exact Nat.zero_le _
  · exact ⟨1, 0, by simp, Or.inr le_rfl⟩
  · intro c
    rw [hmarked c]
    simp
  · intro b hb
    cases hb
  · intro c k _ hk
    exact absurd hk (Nat.not_lt_zero _)
  · intro c k hr hk
    have : k = 0 := Nat.le_zero.1 hk
    subst this
    rw [hmarked c]
    exact hzero_reach c hr
  · intro c hc
    by_cases hcr : c = root
    · subst hcr
      rw [hroot] at hc
      cases hc
    · rw [hne c hcr, visInit_vget] at hc
      split at hc
      · assumption
      · cases hc
  · intro c hc
    have := markedCount_pos hc
    omega

/-- One BFS iteration preserves the invariant: pop the queue head, enqueue
its unvisited neighbours one layer further out. -/
theorem inv_step {m : Map} {root : Coords} {dep : Coords → Nat} {dq : Nat}
    {vis : List (List VEntry)} {v : Coords} {qrest pops : List Coords}
    (hInv : BfsInv m root dep dq vis (v :: qrest) pops) :
    ∃ dep' dq', BfsInv m root dep' dq'
      (enqueue v vis qrest (m.getNeighbours v "")).1
      (enqueue v vis qrest (m.getNeighbours v "")).2
      (pops ++ [v]) := by
  obtain ⟨e1, e2, e3, e4⟩ :=
    enqueue_spec v (m.getNeighbours v "") vis qrest (nbrs_nodup m v "")
  obtain ⟨i0, j0, hmap, hione⟩ := hInv.sorted
  have hi1 : 1 ≤ i0 := by
    rcases hione with h | h
    · cases h
    · exact h
  obtain ⟨i, rfl⟩ : ∃ i, i0 = i + 1 := ⟨i0 - 1, by omega⟩
  rw [List.map_cons, List.replicate_succ, List.cons_append] at hmap
  obtain ⟨hdepv, hqrmap⟩ := List.cons_eq_cons.1 hmap
  have hfr_mem : ∀ c, c ∈ (m.getNeighbours v "").filter
      (fun p => decide (vget vis p = VEntry.zero)) ↔
      (c ∈ m.getNeighbours v "" ∧ vget vis c = VEntry.zero) := by
    intro c
    simp [List.mem_filter]
  have hmarkedv : markedAt vis v :=
    (hInv.marked_iff v).2 (Or.inr (by simp))
  have hfresh_not_marked : ∀ c, vget vis c = VEntry.zero →
      ¬ markedAt vis c := by
    rintro c hz ⟨pc, hpc⟩
    rw [hz] at hpc
    cases hpc
  have hm' : ∀ c, markedAt (enqueue v vis qrest (m.getNeighbours v "")).1 c ↔
      ((c ∈ m.getNeighbours v "" ∧ vget vis c = VEntry.zero) ∨
        markedAt vis c) := by
    intro c
    unfold markedAt
    rw [e1 c]
    split
    case isTrue h =>
      constructor
      · intro _
        exact Or.inl h
      · intro _
        exact ⟨v, rfl⟩
    case isFalse h =>
      constructor
      · intro hmk
        exact Or.inr hmk
      · rintro (hf | hmk)
        · exact absurd hf h
        · exact hmk
  refine ⟨fun c => if c ∈ m.getNeighbours v "" ∧ vget vis c = VEntry.zero
                   then dq + 1 else dep c,
          if i = 0 then dq + 1 else dq, ?_⟩
  have hdep'_old : ∀ c, markedAt vis c →
      (if c ∈ m.getNeighbours v "" ∧ vget vis c = VEntry.zero
       then dq + 1 else dep c) = dep c := by
    intro c hc
    rw [if_neg (fun hand => hfresh_not_marked c hand.2 hc)]
  have hdep'v : (if v ∈ m.getNeighbours v "" ∧ vget vis v = VEntry.zero
       then dq + 1 else dep v) = dq := by
    rw [hdep'_old v hmarkedv, hdepv]
  have hnbrsv : ∀ c ∈ m.getNeighbours v "",
      markedAt (enqueue v vis qrest (m.getNeighbours v "")).1 c := by
    intro c hc
    by_cases hz : vget vis c = VEntry.zero
    · exact (hm' c).2 (Or.inl ⟨hc, hz⟩)
    · have hnone : vget vis c ≠ VEntry.none := by
        intro hn
        have hng := hInv.none_tiles c hn
        have hpass := (nbrs_passable hc).2.1
        rw [hng] at hpass
        simp [tilePassable] at hpass
      have hmk : markedAt vis c := by
        cases he : vget vis c with
        | none => exact absurd he hnone
        | zero => exact absurd he hz
        | parent pc => exact ⟨pc, he⟩
      exact (hm' c).2 (Or.inr hmk)
  have hqrest_marked : ∀ c ∈ qrest, markedAt vis c := by
    intro c hc
    exact (hInv.marked_iff c).2 (Or.inr (List.mem_cons_of_mem _ hc))
  have hqrest_dep0 : i = 0 → ∀ c ∈ qrest, dep c = dq + 1 := by
    intro hi c hc
    subst hi
    simp only [List.replicate_zero, List.nil_append] at hqrmap
    have : dep c ∈ qrest.map dep := List.mem_map_of_mem dep hc
    rw [hqrmap] at this
    exact List.eq_of_mem_replicate this
  constructor
  case dims =>
    rw [enqueue_dims, hInv.dims]
  case root_entry =>
    rw [e1 root]
    rw [if_neg ?_]
    · exact hInv.root_entry
    · rintro ⟨-, hz⟩
      rw [hInv.root_entry] at hz
      cases hz
  case dep_root =>
    rw [if_neg ?_, hInv.dep_root]
    rintro ⟨-, hz⟩
    rw [hInv.root_entry] at hz
    cases hz
  case chain =>
    intro c pc hpc hcr
    rw [e1 c] at hpc
    split at hpc
    case isTrue h =>
      cases hpc
      refine ⟨(hm' v).2 (Or.inr hmarkedv), ?_, h.1⟩
      rw [if_pos h, hdep'v]
    case isFalse h =>
      obtain ⟨hmkpc, hdc, hnb⟩ := hInv.chain c pc hpc hcr
      refine ⟨(hm' pc).2 (Or.inr hmkpc), ?_, hnb⟩
      rw [if_neg h, hdep'_old pc hmkpc, hdc]
  case reach_dep =>
    intro c hc
    rcases (hm' c).1 hc with ⟨hnb, hz⟩ | hmk
    · rw [if_pos ⟨hnb, hz⟩]
      have hv := hInv.reach_dep v hmarkedv
      rw [hdepv] at hv
      exact reach.step hv hnb
    · rw [hdep'_old c hmk]
      exact hInv.reach_dep c hmk
  case dep_min =>
    intro c hc k hk
    rcases (hm' c).1 hc with ⟨hnb, hz⟩ | hmk
    · rw [if_pos ⟨hnb, hz⟩]
      by_contra hlt
      push_neg at hlt
      have hkdq : k ≤ dq := by omega
      rcases Nat.lt_or_ge k dq with hkk | hkk
      · have := hInv.comp_lt c k hk hkk
        exact hfresh_not_marked c hz
          ((hInv.marked_iff c).2 (Or.inl this))
      · have hkeq : k = dq := by omega
        subst hkeq
        exact hfresh_not_marked c hz (hInv.comp_le c k hk le_rfl)
    · rw [hdep'_old c hmk]
      exact hInv.dep_min c hmk k hk
  case sorted =>
    have hqr' : qrest.map (fun c =>
        if c ∈ m.getNeighbours v "" ∧ vget vis c = VEntry.zero
        then dq + 1 else dep c) = qrest.map dep :=
      List.map_congr_left (fun c hc => hdep'_old c (hqrest_marked c hc))
    have hfr' : ((m.getNeighbours v "").filter
        (fun p => decide (vget vis p = VEntry.zero))).map (fun c =>
        if c ∈ m.getNeighbours v "" ∧ vget vis c = VEntry.zero
        then dq + 1 else dep c) =
        List.replicate ((m.getNeighbours v "").filter
          (fun p => decide (vget vis p = VEntry.zero))).length (dq + 1) :=
      map_eq_replicate (fun c hc => if_pos ((hfr_mem c).1 hc))
    have hqr0 : i = 0 → qrest.map dep = List.replicate j0 (dq + 1) := by
      intro hi
      subst hi
      simpa using hqrmap
    by_cases hi : i = 0
    · rw [if_pos hi]
      refine ⟨j0 + ((m.getNeighbours v "").filter
        (fun p => decide (vget vis p = VEntry.zero))).length, 0, ?_, ?_⟩
      · rw [e2, List.map_append, hqr', hfr', hqr0 hi,
            List.replicate_add, List.replicate_zero, List.append_nil]
      · by_cases hz : j0 + ((m.getNeighbours v "").filter
            (fun p => decide (vget vis p = VEntry.zero))).length = 0
        · left
          have hq0 : qrest = [] := by
            have := congrArg List.length (hqr0 hi)
            simp only [List.length_map, List.length_replicate] at this
            exact List.length_eq_zero.1 (by omega)
          have hf0 : (m.getNeighbours v "").filter
              (fun p => decide (vget vis p = VEntry.zero)) = [] :=
            List.length_eq_zero.1 (by omega)
          rw [e2, hq0, hf0]
          rfl
        · exact Or.inr (by omega)
    · rw [if_neg hi]
      refine ⟨i, j0 + ((m.getNeighbours v "").filter
        (fun p => decide (vget vis p = VEntry.zero))).length, ?_,
        Or.inr (by omega)⟩
      rw [e2, List.map_append, hqr', hfr', hqrmap, List.append_assoc,
          List.replicate_add]
  case marked_iff =>
    intro c
    rw [hm' c]
    constructor
    · rintro (⟨hnb, hz⟩ | hmk)
      · right
        rw [e2]
        exact List.mem_append.2 (Or.inr ((hfr_mem c).2 ⟨hnb, hz⟩))
      · rcases (hInv.marked_iff c).1 hmk with hp | hq
        · exact Or.inl (List.mem_append.2 (Or.inl hp))
        · rcases List.mem_cons.1 hq with rfl | hq
          · exact Or.inl (List.mem_append.2 (Or.inr (by simp)))
          · right
            rw [e2]
            exact List.mem_append.2 (Or.inl hq)
    · rintro (hp | hq)
      · rcases List.mem_append.1 hp with hp | hp
        · exact Or.inr ((hInv.marked_iff c).2 (Or.inl hp))
        · simp only [List.mem_singleton] at hp
          subst hp
          exact Or.inr hmarkedv
      · rw [e2] at hq
        rcases List.mem_append.1 hq with hq | hq
        · exact Or.inr (hqrest_marked c hq)
        · exact Or.inl ((hfr_mem c).1 hq)
  case expanded =>
    intro b hb c hc
    rcases List.mem_append.1 hb with hb | hb
    · exact (hm' c).2 (Or.inr (hInv.expanded b hb c hc))
    · simp only [List.mem_singleton] at hb
      subst hb
      exact hnbrsv c hc
  case comp_lt =>
    intro c k hk hlt
    by_cases hi : i = 0
    · rw [if_pos hi] at hlt
      rcases Nat.lt_or_ge k dq with hkk | hkk
      · exact List.mem_append.2 (Or.inl (hInv.comp_lt c k hk hkk))
      · have hkeq : k = dq := by omega
        subst hkeq
        have hmk := hInv.comp_le c k hk le_rfl
        rcases (hInv.marked_iff c).1 hmk with hp | hq
        · exact List.mem_append.2 (Or.inl hp)
        · rcases List.mem_cons.1 hq with rfl | hq
          · exact List.mem_append.2 (Or.inr (by simp))
          · exfalso
            have h1 := hqrest_dep0 hi c hq
            have h2 := hInv.dep_min c hmk k hk
            omega
    · rw [if_neg hi] at hlt
      exact List.mem_append.2 (Or.inl (hInv.comp_lt c k hk hlt))
  case comp_le =>
    intro c k hk hle
    by_cases hi : i = 0
    · rw [if_pos hi] at hle
      rcases Nat.lt_or_ge k (dq + 1) with hkk | hkk
      · exact (hm' c).2 (Or.inr (hInv.comp_le c k hk (by omega)))
      · have hkeq : k = dq + 1 := by omega
        subst hkeq
        obtain ⟨b, hbr, hbc⟩ := reach_succ_inv hk
        have hmb := hInv.comp_le b dq hbr le_rfl
        rcases (hInv.marked_iff b).1 hmb with hp | hq
        · exact (hm' c).2 (Or.inr (hInv.expanded b hp c hbc))
        · rcases List.mem_cons.1 hq with rfl | hq
          · exact hnbrsv c hbc
          · exfalso
            have h1 := hqrest_dep0 hi b hq
            have h2 := hInv.dep_min b hmb dq hbr
            omega
    · rw [if_neg hi] at hle
      exact (hm' c).2 (Or.inr (hInv.comp_le c k hk hle))
  case none_tiles =>
    intro c hc
    rw [e1 c] at hc
    split at hc
    case isTrue h => cases hc
    case isFalse h => exact hInv.none_tiles c hc
  case dep_card =>
    intro c hc
    rw [e4]
    rcases (hm' c).1 hc with ⟨hnb, hz⟩ | hmk
    · rw [if_pos ⟨hnb, hz⟩]
      have h1 := hInv.dep_card v hmarkedv
      have h2 : 0 < ((m.getNeighbours v "").filter
          (fun p => decide (vget vis p = VEntry.zero))).length :=
        List.length_pos.2 (List.ne_nil_of_mem ((hfr_mem c).2 ⟨hnb, hz⟩))
      omega
    · rw [hdep'_old c hmk]
      have := hInv.dep_card c hmk
      omega

/-- A zero-length path starts where it ends. -/
theorem reach_zero_inv {m : Map} {mode : String} {root c : Coords}
    (h : reach m mode root 0 c) : c = root := by
  cases h
  rfl

/-- Walking the parent pointers from a marked cell reconstructs, inside
the source's loop, the reversed cell path back to the root: one cell per
layer, consecutive cells neighbour-linked. -/
theorem rebuild_spec {m : Map} {root : Coords} {dep : Coords → Nat}
    {dq : Nat} {vis : List (List VEntry)} {q pops : List Coords}
    (hInv : BfsInv m root dep dq vis q pops) :
    ∀ (n : Nat) (c : Coords), dep c = n → markedAt vis c →
      ∀ (fuel : Nat), n < fuel → ∀ (acc : List Coords),
      ∃ l, rebuildPath vis fuel c acc = .ok (acc ++ l) ∧
        List.Chain' (fun a b => a ∈ m.getNeighbours b "") (c :: l) ∧
        (c :: l).getLast? = some root ∧ l.length = n := by
  intro n
  induction n using Nat.strong_induction_on with
  | _ n ih =>
      intro c hdc hmk fuel hfuel acc
      obtain ⟨pc, hpc⟩ := hmk
      obtain ⟨fuel, rfl⟩ : ∃ f, fuel = f + 1 := ⟨fuel - 1, by omega⟩
      by_cases hcr : c = root
      · subst hcr
        unfold rebuildPath
        rw [hInv.root_entry]
        dsimp only
        rw [if_pos rfl]
        refine ⟨[], by simp, by simp, by simp, ?_⟩
        rw [← hdc, hInv.dep_root]
        rfl
      · obtain ⟨hmkpc, hdcc, hnb⟩ := hInv.chain c pc hpc hcr
        have hpcne : pc ≠ c := by
          intro he
          rw [he] at hdcc
          omega
        obtain ⟨l', hrec, hch, hlast, hlen⟩ :=
          ih (dep pc) (by omega) pc rfl hmkpc fuel (by omega) (acc ++ [pc])
        refine ⟨pc :: l', ?_, ?_, ?_, ?_⟩
        · unfold rebuildPath
          rw [hpc]
          dsimp only
          rw [if_neg hpcne, hrec, List.append_assoc]
          rfl
        · exact List.chain'_cons.2 ⟨hnb, hch⟩
        · rw [List.getLast?_cons_cons]
          exact hlast
        · simp only [List.length_cons]
          omega

/-- getActionsGo succeeds along a neighbour-linked path and emits exactly
one forward move per path cell. -/
theorem getActionsGo_chain {m : Map} :
    ∀ (path : List Coords) (cur : Coords) (face : Facing)
      (acc : List Action),
      List.Chain (fun a b => b ∈ m.getNeighbours a "") cur path →
      ∃ acts, Map.getActionsGo cur face path acc = .ok acts ∧
        acts.count Action.STEP_FORWARD =
          acc.count Action.STEP_FORWARD + path.length := by
  intro path
  induction path with
  | nil =>
      intro cur face acc _
      exact ⟨acc, rfl, by simp⟩
  | cons next rest ih =>
      intro cur face acc hch
      rw [List.chain_cons] at hch
      obtain ⟨tf, htf⟩ := nbrs_targetFace hch.1
      obtain ⟨dirs, f', hdc, hcount⟩ := @dirChange_ok cur next face tf htf
      obtain ⟨acts, hrec, hcnt⟩ :=
        ih next f' (acc ++ dirs ++ [Action.STEP_FORWARD]) hch.2
      refine ⟨acts, ?_, ?_⟩
      · unfold Map.getActionsGo
        rw [hdc]
        simp only [okBind]
        exact hrec
      · rw [hcnt]
        simp only [List.count_append, List.length_cons]
        have hsf : [Action.STEP_FORWARD].count Action.STEP_FORWARD = 1 :=
          rfl
        omega

/-- Turning a parent chain, last cell root, into a forward walk from the
root. -/
theorem chain_to_walk {m : Map} {root : Coords} {l0 : List Coords}
    (hne : l0 ≠ [])
    (hch : List.Chain' (fun a b => a ∈ m.getNeighbours b "") l0)
    (hlast : l0.getLast? = some root) :
    List.Chain (fun a b => b ∈ m.getNeighbours a "") root
      l0.dropLast.reverse := by
  have h1 : l0.getLast hne = root := by
    have h2 := List.getLast?_eq_getLast l0 hne
    rw [h2] at hlast
    exact Option.some_injective _ hlast
  have hrev : l0.reverse = root :: l0.dropLast.reverse := by
    conv_lhs => rw [← List.dropLast_append_getLast hne]
    rw [List.reverse_append, h1]
    rfl
  have hch2 : List.Chain' (fun a b => b ∈ m.getNeighbours a "")
      l0.reverse := by
    rw [List.chain'_reverse]
    exact hch
  rw [hrev] at hch2
  exact hch2

/-- When the queue has emptied, every cell reachable from the root in any
number of steps has been expanded. -/
theorem empty_queue_complete {m : Map} {root : Coords} {dep : Coords → Nat}
    {dq : Nat} {vis : List (List VEntry)} {pops : List Coords}
    (hInv : BfsInv m root dep dq vis [] pops) :
    ∀ k c, reach m "" root k c → c ∈ pops := by
  intro k
  induction k with
  | zero =>
      intro c hr
      rw [reach_zero_inv hr]
      have hm : markedAt vis root := ⟨root, hInv.root_entry⟩
      rcases (hInv.marked_iff root).1 hm with h | h
      · exact h
      · cases h
  | succ k ih =>
      intro c hr
      obtain ⟨b, hb, hmem⟩ := reach_succ_inv hr
      have hmk := hInv.expanded b (ih b hb) c hmem
      rcases (hInv.marked_iff c).1 hmk with h | h
      · exact h
      · cases h

/-- The master run lemma for the unbounded coordinate search: starting
from any state satisfying the invariant, with the target not yet popped
and enough fuel, the loop terminates without error; it either returns a
plan reaching the target with a graph-minimal forward-move count, or the
miss sentinel, in which case the target is unreachable. -/
theorem bfsAux_run {m : Map} {root t : Coords} {d : ChampionDesc}
    (hd : m.description = some d) :
    ∀ (fuel : Nat) (vis : List (List VEntry)) (q pops : List Coords)
      (r : Nat) (dep : Coords → Nat) (dq : Nat),
      BfsInv m root dep dq vis q pops →
      t ∉ pops →
      q.length + zeroCount vis + 1 ≤ fuel →
      markedCount vis + zeroCount vis ≤ m.MAPSIZE.1 * m.MAPSIZE.2 →
      ∃ acts res,
        (m.bfsAux (Target.coords t) "" none root fuel vis q r pops).1 =
          .ok (acts, res) ∧
        ((res = some t ∧
            reach m "" root (acts.count Action.STEP_FORWARD) t ∧
            (∀ k, reach m "" root k t →
              acts.count Action.STEP_FORWARD ≤ k)) ∨
         (acts = [] ∧ res = m.position ∧
            ∀ k, ¬ reach m "" root k t)) := by
  intro fuel
  induction fuel with
  | zero =>
      intro vis q pops r dep dq _ _ hfuel _
      omega
  | succ fuel ih =>
      intro vis q pops r dep dq hInv hnt hfuel hcount
      cases q with
      | nil =>
          refine ⟨[], m.position, ?_, Or.inr ⟨rfl, rfl, ?_⟩⟩
          · unfold Map.bfsAux
            rfl
          · intro k hk
            exact hnt (empty_queue_complete hInv k t hk)
      | cons v qrest =>
          have hrad : radOk none r = true := rfl
          have hmarkedv : markedAt vis v :=
            (hInv.marked_iff v).2 (Or.inr (List.mem_cons_self _ _))
          by_cases hvt : v = t
          · subst hvt
            have htf : m.targetFound v (Target.coords v) = .ok true := by
              unfold Map.targetFound
              dsimp only
              rw [if_pos ⟨rfl, rfl⟩]
            have hdepb : dep v < m.fuelBound := by
              have h1 := hInv.dep_card v hmarkedv
              unfold Map.fuelBound
              omega
            obtain ⟨l, hreb, hch, hlast, hlen⟩ :=
              rebuild_spec hInv (dep v) v rfl hmarkedv m.fuelBound hdepb [v]
            have hwalk := @chain_to_walk m root (v :: l) (by simp) hch hlast
            obtain ⟨acts, hacts, hcnt⟩ :=
              getActionsGo_chain ((v :: l).dropLast.reverse) root d.facing
                [] hwalk
            have hc2 : acts.count Action.STEP_FORWARD = dep v := by
              rw [hcnt]
              simp only [List.count_nil, List.length_reverse,
                List.length_dropLast, List.length_cons]
              omega
            refine ⟨acts, some v, ?_, Or.inl ⟨rfl, ?_, ?_⟩⟩
            · unfold Map.bfsAux
              dsimp only
              rw [if_pos hrad, htf]
              dsimp only
              rw [hreb]
              dsimp only
              unfold Map.getActions
              rw [hd]
              dsimp only
              simp only [List.singleton_append]
              rw [hacts]
            · rw [hc2]
              exact hInv.reach_dep v hmarkedv
            · intro k hk
              rw [hc2]
              exact hInv.dep_min v hmarkedv k hk
          · have hne : ¬(v.x = t.x ∧ v.y = t.y) := by
              rintro ⟨h1, h2⟩
              exact hvt (by cases v; cases t; simp_all)
            obtain ⟨tile, htile⟩ := marked_gridGet_ok hInv.dims hmarkedv
            have htf : m.targetFound v (Target.coords t) = .ok false := by
              unfold Map.targetFound
              dsimp only
              rw [if_neg hne, htile]
              rfl
            obtain ⟨dep', dq', hInv'⟩ := inv_step hInv
            obtain ⟨e1, e2, e3, e4⟩ :=
              enqueue_spec v (m.getNeighbours v "") vis qrest
                (nbrs_nodup m v "")
            have hnt' : t ∉ pops ++ [v] := by
              simp only [List.mem_append, List.mem_singleton]
              rintro (h | h)
              · exact hnt h
              · exact hvt h.symm
            have hlen2 :
                (enqueue v vis qrest (m.getNeighbours v "")).2.length =
                qrest.length + ((m.getNeighbours v "").filter
                  (fun p => decide (vget vis p = VEntry.zero))).length := by
              rw [e2]
              simp
            simp only [List.length_cons] at hfuel
            have hfuel' :
                (enqueue v vis qrest (m.getNeighbours v "")).2.length +
                  zeroCount (enqueue v vis qrest
                    (m.getNeighbours v "")).1 + 1 ≤ fuel := by
              omega
            have hcount' :
                markedCount (enqueue v vis qrest
                    (m.getNeighbours v "")).1 +
                  zeroCount (enqueue v vis qrest
                    (m.getNeighbours v "")).1 ≤
                m.MAPSIZE.1 * m.MAPSIZE.2 := by
              omega
            obtain ⟨acts, res, hrun, hcase⟩ :=
              ih _ _ _ (r + 1) dep' dq' hInv' hnt' hfuel' hcount'
            refine ⟨acts, res, ?_, hcase⟩
            unfold Map.bfsAux
            dsimp only
            rw [if_pos hrad, htf]
            dsimp only
            exact hrun

/-- The taxi distance never exceeds the length of any neighbour walk. -/
theorem taxi_le_reach {m : Map} {mode : String} {root c : Coords} {k : Nat}
    (h : reach m mode root k c) : taxiDistance root c ≤ k := by
  induction h with
  | zero => simp [taxiDistance]
  | step hr hmem ih =>
      rcases nbrs_shape hmem with hb | hb | hb | hb <;> subst hb <;>
        unfold taxiDistance at ih ⊢ <;> dsimp only <;> omega

/-- Every cell on a walk is the root or an in-bounds neighbour target. -/
theorem reach_inMap {m : Map} {root c : Coords} {k : Nat}
    (h : reach m "" root k c) : c = root ∨ m.isInMap c = true := by
  cases h with
  | zero => exact Or.inl rfl
  | step hr hmem => exact Or.inr (nbrs_passable hmem).1

/-- The bound test spelled out on the coordinate components. -/
theorem isInMap_iff {m : Map} {c : Coords} :
    m.isInMap c = true ↔
      c.x < (m.MAPSIZE.1 : Int) ∧ 0 ≤ c.x ∧
      c.y < (m.MAPSIZE.2 : Int) ∧ 0 ≤ c.y := by
  unfold Map.isInMap
  simp [Bool.and_eq_true, decide_eq_true_eq, and_assoc]

/-- The obstacle-free grid property: every in-bounds cell of the map is
passable and carries no mist. -/
def Map.openGrid (m : Map) : Prop :=
  ∀ i < m.MAPSIZE.1, ∀ j < m.MAPSIZE.2,
    tilePassable (m.gridGetD ⟨(i : Int), (j : Int)⟩) = true ∧
    tileIsMist (m.gridGetD ⟨(i : Int), (j : Int)⟩) = false

instance (m : Map) : Decidable m.openGrid := by
  unfold Map.openGrid
  infer_instance

/-- On an obstacle-free grid every in-bounds axis step is a neighbour. -/
theorem open_nbr {m : Map} (hopen : m.openGrid) {b c : Coords}
    (hshape : c = ⟨b.x + 1, b.y⟩ ∨ c = ⟨b.x - 1, b.y⟩ ∨
              c = ⟨b.x, b.y + 1⟩ ∨ c = ⟨b.x, b.y - 1⟩)
    (hin : m.isInMap c = true) : c ∈ m.getNeighbours b "" := by
  unfold Map.getNeighbours
  rw [List.mem_filter]
  obtain ⟨h1, h2, h3, h4⟩ := isInMap_iff.1 hin
  have hcast : (⟨(c.x.toNat : Int), (c.y.toNat : Int)⟩ : Coords) = c := by
    cases c with
    | mk x y =>
        simp only [Coords.mk.injEq]
        exact ⟨Int.toNat_of_nonneg h2, Int.toNat_of_nonneg h4⟩
  have hop := hopen c.x.toNat (by omega) c.y.toNat (by omega)
  rw [hcast] at hop
  constructor
  · rcases hshape with h | h | h | h <;> subst h <;> simp
  · simp [hin, hop.1, hop.2]

/-- On an obstacle-free grid a monotone staircase walk realizes the taxi
distance between any two in-bounds cells. -/
theorem open_reach {m : Map} (hopen : m.openGrid) :
    ∀ (n : Nat) (b t : Coords), taxiDistance b t = n →
      m.isInMap b = true → m.isInMap t = true →
      reach m "" b n t := by
  intro n
  induction n with
  | zero =>
      intro b t htaxi hb ht
      have hbt : b = t := by
        unfold taxiDistance at htaxi
        have hx : b.x = t.x := by omega
        have hy : b.y = t.y := by omega
        cases b
        cases t
        simp_all
      rw [← hbt]
      exact reach.zero
  | succ n ih =>
      intro b t htaxi hb ht
      obtain ⟨h1b, h2b, h3b, h4b⟩ := isInMap_iff.1 hb
      obtain ⟨h1t, h2t, h3t, h4t⟩ := isInMap_iff.1 ht
      unfold taxiDistance at htaxi
      have step_from : ∀ c : Coords,
          (c = ⟨b.x + 1, b.y⟩ ∨ c = ⟨b.x - 1, b.y⟩ ∨
           c = ⟨b.x, b.y + 1⟩ ∨ c = ⟨b.x, b.y - 1⟩) →
          m.isInMap c = true → taxiDistance c t = n →
          reach m "" b (n + 1) t := by
        intro c hshape hcin htaxic
        have hstep : reach m "" b 1 c :=
          reach.step reach.zero (open_nbr hopen hshape hcin)
        have htail : reach m "" c n t := ih c t htaxic hcin ht
        have hall := reach_trans hstep htail
        rwa [Nat.add_comm 1 n] at hall
      rcases lt_trichotomy b.x t.x with hxc | hxc | hxc
      · exact step_from ⟨b.x + 1, b.y⟩ (Or.inl rfl)
          (isInMap_iff.2 (by refine ⟨?_, ?_, ?_, ?_⟩ <;> dsimp only <;>
            omega))
          (by unfold taxiDistance; dsimp only; omega)
      · rcases lt_trichotomy b.y t.y with hyc | hyc | hyc
        · exact step_from ⟨b.x, b.y + 1⟩ (Or.inr (Or.inr (Or.inl rfl)))
            (isInMap_iff.2 (by refine ⟨?_, ?_, ?_, ?_⟩ <;> dsimp only <;>
              omega))
            (by unfold taxiDistance; dsimp only; omega)
        · exfalso
          omega
        · exact step_from ⟨b.x, b.y - 1⟩ (Or.inr (Or.inr (Or.inr rfl)))
            (isInMap_iff.2 (by refine ⟨?_, ?_, ?_, ?_⟩ <;> dsimp only <;>
              omega))
            (by unfold taxiDistance; dsimp only; omega)
      · exact step_from ⟨b.x - 1, b.y⟩ (Or.inr (Or.inl rfl))
          (isInMap_iff.2 (by refine ⟨?_, ?_, ?_, ?_⟩ <;> dsimp only <;>
            omega))
          (by unfold taxiDistance; dsimp only; omega)

/-- Marking the in-bounds root in the initial Visited array succeeds. -/
theorem pySet2_init_ok {m : Map} (hWF : m.WF) {root : Coords}
    (hin : m.isInMap root = true) :
    ∃ vis1, pySet2 m.visInit root (VEntry.parent root) = .ok vis1 := by
  obtain ⟨h1, h2, h3, h4⟩ := isInMap_iff.1 hin
  have hvl : m.visInit.length = m.MAPSIZE.1 := by
    unfold Map.visInit
    rw [List.length_map, hWF.1]
  have hxlt : root.x.toNat < m.visInit.length := by
    rw [hvl]
    omega
  have hxm : root.x.toNat < m.map.length := by
    rw [hWF.1]
    omega
  obtain ⟨mrow, hmrow⟩ : ∃ mrow, m.map.get? root.x.toNat = some mrow :=
    ⟨_, List.get?_eq_get hxm⟩
  have hmlen : mrow.length = m.MAPSIZE.2 :=
    hWF.2 mrow (List.get?_mem hmrow)
  have hvrow : m.visInit.get? root.x.toNat =
      some (mrow.map (fun t => if t = MapTile.none then VEntry.none
        else VEntry.zero)) := by
    unfold Map.visInit
    rw [List.get?_map, hmrow]
    rfl
  have hgetrow : m.visInit.get ⟨root.x.toNat, hxlt⟩ =
      mrow.map (fun t => if t = MapTile.none then VEntry.none
        else VEntry.zero) := by
    have hsome := List.get?_eq_get hxlt
    have h5 : some (mrow.map (fun t => if t = MapTile.none then
        VEntry.none else VEntry.zero)) =
        some (m.visInit.get ⟨root.x.toNat, hxlt⟩) := by
      rw [← hvrow]
      exact hsome
    exact (Option.some_injective _ h5).symm
  have hrowlen : (m.visInit.get ⟨root.x.toNat, hxlt⟩).length =
      m.MAPSIZE.2 := by
    rw [hgetrow, List.length_map, hmlen]
  have hg : pyGet m.visInit root.x =
      .ok (m.visInit.get ⟨root.x.toNat, hxlt⟩) := by
    unfold pyGet
    have hnx : ¬ root.x < 0 := by omega
    simp only [hnx, if_false]
    rw [dif_pos ⟨h2, hxlt⟩]
  have hs1 : pySet (m.visInit.get ⟨root.x.toNat, hxlt⟩) root.y
      (VEntry.parent root) =
      .ok ((m.visInit.get ⟨root.x.toNat, hxlt⟩).set root.y.toNat
        (VEntry.parent root)) := by
    unfold pySet
    have hny : ¬ root.y < 0 := by omega
    simp only [hny, if_false]
    rw [if_pos ⟨h4, by rw [hrowlen]; omega⟩]
  have hs2 : pySet m.visInit root.x
      ((m.visInit.get ⟨root.x.toNat, hxlt⟩).set root.y.toNat
        (VEntry.parent root)) =
      .ok (m.visInit.set root.x.toNat
        ((m.visInit.get ⟨root.x.toNat, hxlt⟩).set root.y.toNat
          (VEntry.parent root))) := by
    unfold pySet
    have hnx : ¬ root.x < 0 := by omega
    simp only [hnx, if_false]
    rw [if_pos ⟨h2, hxlt⟩]
  refine ⟨m.visInit.set root.x.toNat
    ((m.visInit.get ⟨root.x.toNat, hxlt⟩).set root.y.toNat
      (VEntry.parent root)), ?_⟩
  unfold pySet2
  rw [hg]
  simp only [okBind]
  rw [hs1]
  simp only [okBind]
  exact hs2

/-- The path the open-grid search returns from (0,0) facing LEFT to
(3,3): two turns to face RIGHT, three moves, one corner turn, three
moves. -/
def openActs : List Action :=
  [Action.TURN_RIGHT, Action.TURN_RIGHT, Action.STEP_FORWARD,
   Action.STEP_FORWARD, Action.STEP_FORWARD, Action.TURN_RIGHT,
   Action.STEP_FORWARD, Action.STEP_FORWARD, Action.STEP_FORWARD]

/-- C8 counterexample: on an obstacle-free 4x4 grid, from root (0,0)
facing LEFT to target (3,3), the returned sequence has exactly the
manhattan-distance 6 forward moves but 3 turn actions - more than the 2
extra turns the claim allows. -/
theorem open_grid_three_turns :
    Map.openGrid mapOpen4 ∧
    mapOpen4.shortestPath ⟨0, 0⟩ (Target.coords ⟨3, 3⟩) none "" =
      .ok (openActs, some ⟨3, 3⟩) ∧
    openActs.count Action.STEP_FORWARD = taxiDistance ⟨0, 0⟩ ⟨3, 3⟩ ∧
    openActs.length - openActs.count Action.STEP_FORWARD = 3 ∧
    2 < 3 := by
  refine ⟨by decide, by decide, by decide, by decide, by decide⟩

/-- C8 (amended): for every well-formed grid snapshot, in-bounds root and
reachable target cell, the unbounded coordinate search succeeds and its
action list's forward-move count is the length of an actual neighbour walk
from root to target that is minimal over the known passable subgraph; on
an obstacle-free grid that count equals the manhattan distance (the turn
overhead, however, can reach 3, not the claimed at-most 2 - see the 4x4
counterexample). -/
theorem shortestPath_move_optimal (m : Map) (root t : Coords)
    (d : ChampionDesc) (k0 : Nat)
    (hWF : m.WF) (hd : m.description = some d)
    (hin : m.isInMap root = true)
    (hreach : reach m "" root k0 t) :
    ∃ acts, m.shortestPath root (Target.coords t) none "" =
        .ok (acts, some t) ∧
      reach m "" root (acts.count Action.STEP_FORWARD) t ∧
      (∀ k, reach m "" root k t → acts.count Action.STEP_FORWARD ≤ k) ∧
      (m.openGrid → acts.count Action.STEP_FORWARD =
        taxiDistance root t) := by
  obtain ⟨vis1, hset⟩ := pySet2_init_ok hWF hin
  obtain ⟨h1, h2, h3, h4⟩ := isInMap_iff.1 hin
  have hInv := inv_init h2 h4 hset
  have hdims1 : vis1.map List.length = m.map.map List.length := by
    rw [pySet2_dims h2 h4 hset, visInit_dims]
  have htot : (vis1.map List.length).sum =
      m.MAPSIZE.1 * m.MAPSIZE.2 := by
    rw [hdims1, sum_lengths_of_WF hWF]
  have hmk1 : 1 ≤ markedCount vis1 :=
    markedCount_pos ⟨root, vget_after_pySet2 h2 h4 hset⟩
  have hzm := zero_marked_le_total vis1
  rw [htot] at hzm
  obtain ⟨acts, res, hrun, hcase⟩ :=
    bfsAux_run hd m.fuelBound vis1 [root] [] 0 (fun _ => 0) 0 hInv
      (List.not_mem_nil t)
      (by unfold Map.fuelBound
          simp only [List.length_cons, List.length_nil]
          omega)
      (by omega)
  rcases hcase with ⟨hres, hcr, hmin⟩ | ⟨-, -, hnone⟩
  · subst hres
    refine ⟨acts, ?_, hcr, hmin, ?_⟩
    · unfold Map.shortestPath
      rw [hset]
      exact hrun
    · intro hopen
      have hge : taxiDistance root t ≤ acts.count Action.STEP_FORWARD :=
        taxi_le_reach hcr
      have hle : acts.count Action.STEP_FORWARD ≤
          taxiDistance root t := by
        rcases reach_inMap hreach with h | h
        · have h0 : reach m "" root 0 t := by
            rw [h]
            exact reach.zero
          have hm0 := hmin 0 h0
          have ht0 : taxiDistance root t = 0 := by
            rw [h]
            simp [taxiDistance]
          omega
        · exact hmin _ (open_reach hopen (taxiDistance root t) root t
            rfl hin h)
      omega
  · exact absurd hreach (hnone k0)

/-- Witness for shortestPath_move_optimal on the concrete obstacle-free
4x4 map: root (0,0), target (1,1), reachable in two steps. -/
theorem shortestPath_move_optimal_witness :
    ∃ acts, mapOpen4.shortestPath ⟨0, 0⟩ (Target.coords ⟨1, 1⟩) none "" =
        .ok (acts, some ⟨1, 1⟩) ∧
      reach mapOpen4 "" ⟨0, 0⟩ (acts.count Action.STEP_FORWARD) ⟨1, 1⟩ ∧
      (∀ k, reach mapOpen4 "" ⟨0, 0⟩ k ⟨1, 1⟩ →
        acts.count Action.STEP_FORWARD ≤ k) ∧
      (mapOpen4.openGrid → acts.count Action.STEP_FORWARD =
        taxiDistance ⟨0, 0⟩ ⟨1, 1⟩) := by
  have s1 : reach mapOpen4 "" ⟨0, 0⟩ 1 ⟨1, 0⟩ :=
    reach.step reach.zero (by decide)
  have s2 : reach mapOpen4 "" ⟨0, 0⟩ 2 ⟨1, 1⟩ :=
    reach.step s1 (by decide)
  exact shortestPath_move_optimal mapOpen4 ⟨0, 0⟩ ⟨1, 1⟩ ⟨Facing.LEFT⟩ 2
    (by decide) rfl (by decide) s2

end Ares
